import Mathlib

/-!
Verification of the SPARK extraction-aggregation-and-visualization pipeline.

The definitions below are shallow embeddings of the Python source in
`src/spark/utils.py` and `src/spark/app.py`.  Python dicts are modelled as
association lists in insertion order, Python strings as Lean `String`
(sequences of unicode code points), Python ints as `Int`/`Nat`, and the JSON
values handled by the schema persistence code as the inductive `Json` below.
Each definition carries a comment pointing at the source lines it embeds.
-/

namespace Spark

/-! ## Python string ordering

Python compares strings lexicographically by code point.  `strLtB` is a
boolean decision procedure for that order on lists of characters, and `pyLe`
is the corresponding non-strict order on `String`.  We prove `pyLe`
coincides with Mathlib's linear order on `String` (which is code-point
lexicographic), so all order lemmas transfer while concrete instances still
evaluate by `decide`. -/

def strLtB : List Char → List Char → Bool
  | [], [] => false
  | [], _ :: _ => true
  | _ :: _, [] => false
  | a :: as, b :: bs => if a = b then strLtB as bs else decide (a < b)

theorem strLtB_iff_lex (as bs : List Char) : strLtB as bs = true ↔ List.Lex (· < ·) as bs := by
  induction as generalizing bs with
  | nil =>
    cases bs with
    | nil =>
      simp only [strLtB]
      exact ⟨(fun h => by cases h), (fun h => by cases h)⟩
    | cons b bs =>
      simp only [strLtB, true_iff]
      exact List.Lex.nil
  | cons a as ih =>
    cases bs with
    | nil =>
      simp only [strLtB]
      exact ⟨(fun h => by cases h), (fun h => by cases h)⟩
    | cons b bs =>
      by_cases hab : a = b
      · subst hab
        have hred : strLtB (a :: as) (a :: bs) = strLtB as bs := by
          simp [strLtB]
        rw [hred, ih]
        constructor
        · exact List.Lex.cons
        · intro h
          cases h with
          | rel h => exact absurd h (lt_irrefl a)
          | cons h => exact h
      · simp only [strLtB, if_neg hab, decide_eq_true_eq]
        constructor
        · exact List.Lex.rel
        · intro h
          cases h with
          | rel h => exact h
          | cons h => exact absurd rfl hab

/-- The (non-strict) string order used by Python's `sorted` on `str` values:
code-point lexicographic. -/
def pyLe (s t : String) : Prop := strLtB t.data s.data = false

instance : DecidableRel pyLe := fun _ _ => by unfold pyLe; infer_instance

theorem toList_eq_data (s : String) : s.toList = s.data := rfl

theorem pyLe_iff (s t : String) : pyLe s t ↔ s ≤ t := by
  have h1 : (s ≤ t) ↔ ¬ t < s := Iff.rfl
  rw [h1, String.lt_iff_toList_lt, toList_eq_data, toList_eq_data]
  show strLtB t.data s.data = false ↔ ¬ List.Lex (· < ·) t.data s.data
  rw [← strLtB_iff_lex, Bool.not_eq_true]

theorem pyLe_eq : pyLe = (· ≤ · : String → String → Prop) := by
  funext s t
  exact propext (pyLe_iff s t)

instance : IsTrans String pyLe := by rw [pyLe_eq]; infer_instance

instance : IsAntisymm String pyLe := by rw [pyLe_eq]; infer_instance

instance : IsTotal String pyLe := by rw [pyLe_eq]; infer_instance

/-- Python `sorted(set(values))` for a list of strings: the strictly
increasing (code-point order) enumeration of the distinct elements. -/
def pySortedSet (l : List String) : List String := List.insertionSort pyLe l.dedup

theorem pySortedSet_sorted (l : List String) : (pySortedSet l).Sorted pyLe :=
  List.sorted_insertionSort pyLe l.dedup

theorem pySortedSet_nodup (l : List String) : (pySortedSet l).Nodup :=
  ((List.perm_insertionSort pyLe l.dedup).nodup_iff).mpr (List.nodup_dedup l)

theorem pySortedSet_mem (l : List String) (s : String) : s ∈ pySortedSet l ↔ s ∈ l := by
  rw [pySortedSet, List.mem_insertionSort, List.mem_dedup]

theorem pySortedSet_eq_of_mem_iff {l1 l2 : List String} (h : ∀ s, s ∈ l1 ↔ s ∈ l2) :
    pySortedSet l1 = pySortedSet l2 := by
  apply List.eq_of_perm_of_sorted _ (pySortedSet_sorted l1) (pySortedSet_sorted l2)
  rw [List.perm_ext_iff_of_nodup (pySortedSet_nodup l1) (pySortedSet_nodup l2)]
  intro s
  rw [pySortedSet_mem, pySortedSet_mem]
  exact h s

/-! ## Association lists standing for Python dicts -/

/-- Lookup of a key in an association list (Python `d[k]` / `k in d`,
first occurrence wins; keys built below are duplicate-free). -/
def alookup {V : Type} (k : String) : List (String × V) → Option V
  | [] => none
  | kv :: rest => if kv.1 = k then some kv.2 else alookup k rest

theorem alookup_map_key {V : Type} (l : List String) (g : String → V) (m : String) :
    alookup m (l.map (fun n => (n, g n))) = if m ∈ l then some (g m) else none := by
  induction l with
  | nil => simp [alookup]
  | cons n rest ih =>
    simp only [List.map_cons, alookup]
    by_cases h : n = m
    · subst h
      simp
    · rw [if_neg h, ih]
      have hmn : ¬ (m = n) := fun hh => h hh.symm
      by_cases hm : m ∈ rest
      · simp [hm, List.mem_cons]
      · simp [hm, List.mem_cons, hmn]

/-- Key order of a Python dict built by inserting `names` left to right with
equal values: first occurrence of each name.  Models the key set of the dict
comprehension in `src/spark/app.py` line 803. -/
def pyDedupKeys (names : List String) : List String :=
  names.foldl (fun acc n => if n ∈ acc then acc else acc ++ [n]) []

theorem mem_pyDedupKeys_aux (names : List String) (m : String) :
    ∀ acc, m ∈ names.foldl (fun acc n => if n ∈ acc then acc else acc ++ [n]) acc ↔
      m ∈ acc ∨ m ∈ names := by
  induction names with
  | nil => intro acc; simp
  | cons n rest ih =>
    intro acc
    simp only [List.foldl_cons, ih, List.mem_cons]
    by_cases hn : n ∈ acc
    · simp only [if_pos hn]
      constructor
      · rintro (h | h)
        · exact Or.inl h
        · exact Or.inr (Or.inr h)
      · rintro (h | h | h)
        · exact Or.inl h
        · exact Or.inl (h ▸ hn)
        · exact Or.inr h
    · simp only [if_neg hn, List.mem_append, List.mem_singleton]
      tauto

theorem mem_pyDedupKeys (names : List String) (m : String) :
    m ∈ pyDedupKeys names ↔ m ∈ names := by
  rw [pyDedupKeys, mem_pyDedupKeys_aux]
  simp

/-! ## Record normalizer (`prepare_extraction_text`, src/spark/utils.py lines 91-111)

A cell of an uploaded record is either missing from the row, a present null
(`None` — how the repository's own tests build rows), a pandas `NaN`
(how CSV ingestion represents empties), or a string. -/

inductive CellValue where
  | absent : CellValue
  | null : CellValue
  | nan : CellValue
  | text (s : String) : CellValue

/-- Python `str(row.get(field, ''))`: a missing key yields the default `''`;
a present `None` is stringified to `"None"`, a float NaN to `"nan"`, and a
string to itself. -/
def cellStr : CellValue → String
  | .absent => ""
  | .null => "None"
  | .nan => "nan"
  | .text s => s

/-- Embedding of `prepare_extraction_text` (src/spark/utils.py lines 91-111):
`title`/`abstract` are stringified with default `''`, then the branches
follow Python string truthiness (non-empty). -/
def prepare_extraction_text (title abstract : CellValue) : String :=
  let t := cellStr title
  let a := cellStr abstract
  if t ≠ "" ∧ a ≠ "" then "Title: " ++ t ++ "\n\nAbstract: " ++ a
  else if t ≠ "" then "Title: " ++ t
  else if a ≠ "" then "Abstract: " ++ a
  else ""

/-! ## Extraction spans and the aggregator -/

/-- One extraction span returned by the external engine (langextract):
`extraction_class` is the entity type, `extraction_text` the verbatim text,
and `start_pos`/`end_pos` the character offsets of `char_interval`. -/
structure Extraction where
  extraction_class : String
  extraction_text : String
  start_pos : Int
  end_pos : Int
deriving DecidableEq

/-- The texts of the spans of entity type `n`, in discovery order. -/
def extractionsFor (exs : List Extraction) (n : String) : List String :=
  (exs.filter (fun e => decide (e.extraction_class = n))).map (fun e => e.extraction_text)

/-- Initial buckets: the dict comprehension
`{entity_name: [] for entity_name in entity_names}` of src/spark/app.py
line 803 (keys in first-occurrence order, every value the empty list). -/
def entity_extractions_init (names : List String) : List (String × List String) :=
  (pyDedupKeys names).map (fun n => (n, ([] : List String)))

/-- One step of the grouping loop of src/spark/app.py lines 805-808: append
the span's text to its class's bucket if the class is a key, else drop it. -/
def entity_extractions_add (d : List (String × List String)) (e : Extraction) :
    List (String × List String) :=
  if d.any (fun kv => kv.1 = e.extraction_class) then
    d.map (fun kv =>
      if kv.1 = e.extraction_class then (kv.1, kv.2 ++ [e.extraction_text]) else kv)
  else d

/-- Grouping of extraction spans by entity class, src/spark/app.py
lines 803-808. -/
def entity_extractions (names : List String) (exs : List Extraction) :
    List (String × List String) :=
  exs.foldl entity_extractions_add (entity_extractions_init names)

/-- Python `sep.join(parts)`. -/
def pyJoin (sep : String) : List String → String
  | [] => ""
  | [x] => x
  | x :: rest => x ++ sep ++ pyJoin sep rest

/-- `'; '.join(sorted(set(values))) if values else ''`
(src/spark/utils.py line 125 and src/spark/app.py lines 813-816). -/
def joinEntityValues (values : List String) : String :=
  if values = [] then "" else pyJoin "; " (pySortedSet values)

/-- Embedding of `format_extracted_entities` (src/spark/utils.py
lines 114-127), with the dict as an association list. -/
def format_extracted_entities (entities : List (String × List String)) :
    List (String × String) :=
  entities.map (fun kv => (kv.1, joinEntityValues kv.2))

/-- The whole aggregate step: group spans by requested entity name, then
format each bucket (src/spark/app.py lines 803-816; identical per-bucket
formatting to `format_extracted_entities`). -/
def aggregateSpans (names : List String) (exs : List Extraction) : List (String × String) :=
  format_extracted_entities (entity_extractions names exs)

theorem extractionsFor_singleton (e : Extraction) (n : String) :
    extractionsFor [e] n = if e.extraction_class = n then [e.extraction_text] else [] := by
  by_cases h : e.extraction_class = n <;> simp [extractionsFor, h]

theorem entity_extractions_add_map (keys : List String) (f : String → List String)
    (e : Extraction) :
    entity_extractions_add (keys.map (fun n => (n, f n))) e =
      keys.map (fun n => (n, f n ++ extractionsFor [e] n)) := by
  unfold entity_extractions_add
  by_cases hc : e.extraction_class ∈ keys
  · rw [if_pos]
    · rw [List.map_map]
      apply List.map_congr_left
      intro n _
      by_cases hn : n = e.extraction_class
      · simp only [Function.comp, if_pos hn, extractionsFor_singleton, if_pos hn.symm]
      · have hne : ¬ (e.extraction_class = n) := fun hh => hn hh.symm
        simp only [Function.comp, if_neg hn, extractionsFor_singleton, if_neg hne,
          List.append_nil]
    · rw [List.any_eq_true]
      exact ⟨(e.extraction_class, f e.extraction_class),
        List.mem_map.mpr ⟨e.extraction_class, hc, rfl⟩, by simp⟩
  · rw [if_neg]
    · apply List.map_congr_left
      intro n hn
      have hne : ¬ (e.extraction_class = n) := fun hh => hc (hh ▸ hn)
      rw [extractionsFor_singleton, if_neg hne, List.append_nil]
    · rw [List.any_eq_true]
      rintro ⟨kv, hkv, hkv2⟩
      obtain ⟨n, hn, rfl⟩ := List.mem_map.mp hkv
      exact hc ((by simpa using hkv2) ▸ hn)

theorem extractionsFor_cons (e : Extraction) (exs : List Extraction) (n : String) :
    extractionsFor (e :: exs) n = extractionsFor [e] n ++ extractionsFor exs n := by
  by_cases h : e.extraction_class = n <;>
    simp [extractionsFor, List.filter_cons, h]

theorem entity_extractions_foldl (exs : List Extraction) (keys : List String)
    (f : String → List String) :
    exs.foldl entity_extractions_add (keys.map (fun n => (n, f n))) =
      keys.map (fun n => (n, f n ++ extractionsFor exs n)) := by
  induction exs generalizing f with
  | nil => simp [extractionsFor]
  | cons e exs ih =>
    rw [List.foldl_cons, entity_extractions_add_map, ih]
    apply List.map_congr_left
    intro n _
    rw [List.append_assoc]
    exact congrArg (fun l => (n, f n ++ l)) (extractionsFor_cons e exs n).symm

/-- Structure of the grouped buckets: one bucket per distinct requested
name, holding exactly the texts of the spans of that type. -/
theorem entity_extractions_spec (names : List String) (exs : List Extraction) :
    entity_extractions names exs =
      (pyDedupKeys names).map (fun n => (n, extractionsFor exs n)) := by
  rw [entity_extractions, entity_extractions_init, entity_extractions_foldl]
  simp

theorem aggregateSpans_spec (names : List String) (exs : List Extraction) :
    aggregateSpans names exs =
      (pyDedupKeys names).map (fun n => (n, joinEntityValues (extractionsFor exs n))) := by
  rw [aggregateSpans, entity_extractions_spec, format_extracted_entities, List.map_map]
  rfl

theorem alookup_aggregateSpans (names : List String) (exs : List Extraction) (n : String) :
    alookup n (aggregateSpans names exs) =
      if n ∈ names then some (joinEntityValues (extractionsFor exs n)) else none := by
  rw [aggregateSpans_spec, alookup_map_key]
  by_cases h : n ∈ names <;> simp [mem_pyDedupKeys, h]

/-! ## JSON values

The schema persistence code (`save_schema`/`load_schema`,
src/spark/utils.py lines 65-88) is `json.dump`/`json.load` on plain Python
values; the visualization generator embeds data via `json.dumps`.  `Json`
models the values involved: `None`, booleans, integers, strings, lists and
string-keyed dicts.  Strings are lists of unicode code points. -/

inductive Json where
  | null : Json
  | bool (b : Bool) : Json
  | num (n : Int) : Json
  | str (s : List Char) : Json
  | arr (elements : List Json) : Json
  | obj (members : List (List Char × Json)) : Json

/-- Decimal digit to character. -/
def digitChar (d : Nat) : Char :=
  if d = 0 then '0' else if d = 1 then '1' else if d = 2 then '2' else if d = 3 then '3'
  else if d = 4 then '4' else if d = 5 then '5' else if d = 6 then '6' else if d = 7 then '7'
  else if d = 8 then '8' else '9'

/-- Hexadecimal digit to character (lowercase, as Python emits in `\uXXXX`). -/
def hexDigitChar (d : Nat) : Char :=
  if d < 10 then digitChar d
  else if d = 10 then 'a' else if d = 11 then 'b' else if d = 12 then 'c'
  else if d = 13 then 'd' else if d = 14 then 'e' else 'f'

/-- Little-endian decimal digits of `n`, with explicit fuel so that the
definition is structural (fuel `n` suffices). -/
def digitsFuel : Nat → Nat → List Nat
  | 0, _ => []
  | fuel + 1, n => if n = 0 then [] else n % 10 :: digitsFuel fuel (n / 10)

/-- Decimal representation of a natural number, as Python `str`/`json.dumps`
print it. -/
def dumpNat (n : Nat) : List Char :=
  if n = 0 then ['0'] else ((digitsFuel n n).reverse.map digitChar)

/-- Decimal representation of an integer. -/
def dumpInt (i : Int) : List Char :=
  if i < 0 then '-' :: dumpNat i.natAbs else dumpNat i.toNat

/-- Escaping of one character inside a JSON string literal, following
`json.dumps(..., ensure_ascii=False)`: `"` and `\` get a backslash escape,
common control characters use the short escapes, any other control
character below U+0020 becomes `\u00XX` (Python uses `\b`/`\f` for U+0008
and U+000C; the `\u` form here denotes the same characters and `json.load`
reads both), and everything else is emitted raw. -/
def jesc (c : Char) : List Char :=
  if c = '"' then ['\\', '"']
  else if c = '\\' then ['\\', '\\']
  else if c = '\n' then ['\\', 'n']
  else if c = '\t' then ['\\', 't']
  else if c = '\r' then ['\\', 'r']
  else if c.toNat < 32 then
    ['\\', 'u', '0', '0', hexDigitChar (c.toNat / 16), hexDigitChar (c.toNat % 16)]
  else [c]

def jescList : List Char → List Char
  | [] => []
  | c :: s => jesc c ++ jescList s

/-- A JSON string literal. -/
def dumpStringLit (s : List Char) : List Char := '"' :: jescList s ++ ['"']

mutual

/-- `json.dumps` with the default separators `", "` and `": "` (used by the
visualization generator).  `save_schema` passes `indent=2`, which only adds
inter-token whitespace that `json.load` skips; the value content is
identical, so the compact form is used for both. -/
def dumpVal : Json → List Char
  | .null => 'n' :: ['u', 'l', 'l']
  | .bool true => 't' :: ['r', 'u', 'e']
  | .bool false => 'f' :: ['a', 'l', 's', 'e']
  | .num n => dumpInt n
  | .str s => dumpStringLit s
  | .arr es => '[' :: dumpElems es ++ [']']
  | .obj ms => '\x7b' :: dumpMembers ms ++ ['\x7d']

def dumpElems : List Json → List Char
  | [] => []
  | [e] => dumpVal e
  | e :: rest => dumpVal e ++ [',', ' '] ++ dumpElems rest

def dumpMembers : List (List Char × Json) → List Char
  | [] => []
  | [(k, v)] => dumpStringLit k ++ [':', ' '] ++ dumpVal v
  | (k, v) :: rest => dumpStringLit k ++ [':', ' '] ++ dumpVal v ++ [',', ' '] ++ dumpMembers rest

end

/-- `json.dumps` as a `String`-valued function. -/
def dumps (v : Json) : String := String.mk (dumpVal v)

/-! ## JSON parser (`json.load`)

A recursive-descent parser over the character list, skipping whitespace
between tokens as `json.load` does.  Recursions carry explicit fuel so
every function is structural (and therefore evaluates inside the kernel);
the fuel arguments chosen at call sites are proved sufficient below. -/

/-- JSON whitespace. -/
def jws (c : Char) : Bool := c = ' ' || c = '\n' || c = '\r' || c = '\t'

def skipWs (cs : List Char) : List Char := cs.dropWhile jws

def isHexChar (c : Char) : Bool :=
  c.isDigit || ('a' ≤ c && c ≤ 'f') || ('A' ≤ c && c ≤ 'F')

def digitVal (c : Char) : Nat := c.toNat - 48

def hexVal (c : Char) : Nat :=
  if c.isDigit then c.toNat - 48
  else if 'a' ≤ c && c ≤ 'f' then c.toNat - 87
  else c.toNat - 55

/-- Numeric value of a string of decimal digits. -/
def parseNatChars (ds : List Char) : Nat := ds.foldl (fun a c => 10 * a + digitVal c) 0

/-- One-character JSON escapes. -/
def unescSimple (e : Char) : Option Char :=
  if e = '"' then some '"'
  else if e = '\\' then some '\\'
  else if e = '/' then some '/'
  else if e = 'n' then some '\n'
  else if e = 't' then some '\t'
  else if e = 'r' then some '\r'
  else if e = 'b' then some (Char.ofNat 8)
  else if e = 'f' then some (Char.ofNat 12)
  else none

/-- Parse the body of a JSON string literal (after the opening quote) up to
and including the closing quote, returning the decoded characters and the
remaining input. -/
def parseStringBody : Nat → List Char → Option (List Char × List Char)
  | 0, _ => none
  | fuel + 1, cs =>
    match cs with
    | [] => none
    | c :: rest =>
      if c = '"' then some ([], rest)
      else if c = '\\' then
        match rest with
        | [] => none
        | e :: rest2 =>
          if e = 'u' then
            match rest2 with
            | h1 :: h2 :: h3 :: h4 :: rest3 =>
              if isHexChar h1 && isHexChar h2 && isHexChar h3 && isHexChar h4 then
                match parseStringBody fuel rest3 with
                | some (s, r) =>
                  some (Char.ofNat
                    (4096 * hexVal h1 + 256 * hexVal h2 + 16 * hexVal h3 + hexVal h4) :: s, r)
                | none => none
              else none
            | _ => none
          else
            match unescSimple e with
            | some u =>
              match parseStringBody fuel rest2 with
              | some (s, r) => some (u :: s, r)
              | none => none
            | none => none
      else
        match parseStringBody fuel rest with
        | some (s, r) => some (c :: s, r)
        | none => none

/-- Drop an expected literal prefix. -/
def stripPre : List Char → List Char → Option (List Char)
  | [], l => some l
  | _ :: _, [] => none
  | p :: ps, c :: cs => if c = p then stripPre ps cs else none

/-- Comma-separated array elements after the opening bracket (nonempty
case), ending at `]`. -/
def parseListAux (pv : List Char → Option (Json × List Char)) :
    Nat → List Char → Option (List Json × List Char)
  | 0, _ => none
  | fuel + 1, cs =>
    match pv cs with
    | some (v, rest) =>
      match skipWs rest with
      | [] => none
      | c :: rest2 =>
        if c = ',' then
          match parseListAux pv fuel rest2 with
          | some (vs, rest3) => some (v :: vs, rest3)
          | none => none
        else if c = ']' then some ([v], rest2)
        else none
    | none => none

/-- Comma-separated object members after the opening brace (nonempty
case), ending at the closing brace. -/
def parseObjAux (pv : List Char → Option (Json × List Char)) :
    Nat → List Char → Option (List (List Char × Json) × List Char)
  | 0, _ => none
  | fuel + 1, cs =>
    match skipWs cs with
    | [] => none
    | c :: rest =>
      if c = '"' then
        match parseStringBody (rest.length + 1) rest with
        | some (k, rest2) =>
          match skipWs rest2 with
          | [] => none
          | c2 :: rest3 =>
            if c2 = ':' then
              match pv rest3 with
              | some (v, rest4) =>
                match skipWs rest4 with
                | [] => none
                | c3 :: rest5 =>
                  if c3 = ',' then
                    match parseObjAux pv fuel rest5 with
                    | some (ms, rest6) => some ((k, v) :: ms, rest6)
                    | none => none
                  else if c3 = '\x7d' then some ([(k, v)], rest5)
                  else none
              | none => none
            else none
        | none => none
      else none

/-- Parse one JSON value, returning it and the remaining input. -/
def parseVal : Nat → List Char → Option (Json × List Char)
  | 0, _ => none
  | fuel + 1, cs =>
    match skipWs cs with
    | [] => none
    | c :: rest =>
      if c = 'n' then
        match stripPre ['u', 'l', 'l'] rest with
        | some r => some (.null, r)
        | none => none
      else if c = 't' then
        match stripPre ['r', 'u', 'e'] rest with
        | some r => some (.bool true, r)
        | none => none
      else if c = 'f' then
        match stripPre ['a', 'l', 's', 'e'] rest with
        | some r => some (.bool false, r)
        | none => none
      else if c = '"' then
        match parseStringBody (rest.length + 1) rest with
        | some (s, r) => some (.str s, r)
        | none => none
      else if c = '[' then
        match skipWs rest with
        | [] => none
        | c2 :: rest2 =>
          if c2 = ']' then some (.arr [], rest2)
          else
            match parseListAux (parseVal fuel) (rest.length + 1) rest with
            | some (vs, r) => some (.arr vs, r)
            | none => none
      else if c = '\x7b' then
        match skipWs rest with
        | [] => none
        | c2 :: rest2 =>
          if c2 = '\x7d' then some (.obj [], rest2)
          else
            match parseObjAux (parseVal fuel) (rest.length + 1) rest with
            | some (ms, r) => some (.obj ms, r)
            | none => none
      else if c = '-' then
        let ds := rest.takeWhile (fun d => d.isDigit)
        if ds = [] then none
        else some (.num (-(parseNatChars ds : Int)), rest.drop ds.length)
      else if c.isDigit then
        let ds := (c :: rest).takeWhile (fun d => d.isDigit)
        some (.num (parseNatChars ds : Int), (c :: rest).drop ds.length)
      else none

/-- `json.load` on a whole document: parse one value and require only
whitespace to remain. -/
def loads (s : String) : Option Json :=
  match parseVal (s.data.length + 1) s.data with
  | some (v, rest) => if skipWs rest = [] then some v else none
  | none => none

/-! ### Round trip: auxiliary character and digit lemmas -/

/-- The remaining input does not start with a decimal digit (so that a
number token before it cannot absorb it). -/
def noDigitHead (r : List Char) : Prop := ∀ c, r.head? = some c → c.isDigit = false

theorem noDigitHead_nil : noDigitHead [] := by intro c h; cases h

theorem noDigitHead_cons (c : Char) (l : List Char) (h : c.isDigit = false) :
    noDigitHead (c :: l) := by
  intro x hx
  cases hx
  exact h

theorem digitChar_isDigit (d : Nat) : (digitChar d).isDigit = true := by
  unfold digitChar; split_ifs <;> decide

theorem digitVal_digitChar (d : Nat) (h : d < 10) : digitVal (digitChar d) = d := by
  interval_cases d <;> decide

theorem hexDigitChar_isHex (d : Nat) (h : d < 16) : isHexChar (hexDigitChar d) = true := by
  interval_cases d <;> decide

theorem hexVal_hexDigitChar (d : Nat) (h : d < 16) : hexVal (hexDigitChar d) = d := by
  interval_cases d <;> decide

theorem ne_of_isDigit {c : Char} (h : c.isDigit = true) (d : Char) (hd : d.isDigit = false) :
    c ≠ d := by
  intro hh
  rw [hh, hd] at h
  cases h

theorem jws_eq_false_of_isDigit (c : Char) (h : c.isDigit = true) : jws c = false := by
  by_cases h1 : c = ' '
  · subst h1; exact absurd h (by decide)
  by_cases h2 : c = '\n'
  · subst h2; exact absurd h (by decide)
  by_cases h3 : c = '\r'
  · subst h3; exact absurd h (by decide)
  by_cases h4 : c = '\t'
  · subst h4; exact absurd h (by decide)
  simp [jws, h1, h2, h3, h4]

theorem skipWs_cons (c : Char) (l : List Char) (h : jws c = false) : skipWs (c :: l) = c :: l := by
  simp [skipWs, List.dropWhile_cons, h]

theorem skipWs_ws_append (ws l : List Char) (h : ∀ c ∈ ws, jws c = true) :
    skipWs (ws ++ l) = skipWs l := by
  induction ws with
  | nil => simp
  | cons c ws ih =>
    rw [List.cons_append, skipWs, List.dropWhile_cons_of_pos (h c (List.mem_cons_self c ws))]
    exact ih (fun x hx => h x (List.mem_cons_of_mem c hx))

theorem takeWhile_digits (ds r : List Char) (h1 : ∀ c ∈ ds, c.isDigit = true)
    (h2 : noDigitHead r) :
    (ds ++ r).takeWhile (fun d => d.isDigit) = ds := by
  induction ds with
  | nil =>
    cases r with
    | nil => rfl
    | cons c r => simp [List.takeWhile_cons, h2 c rfl]
  | cons c ds ih =>
    rw [List.cons_append, List.takeWhile_cons_of_pos]
    · rw [ih (fun x hx => h1 x (List.mem_cons_of_mem c hx))]
    · simpa using h1 c (List.mem_cons_self c ds)

theorem digitsFuel_eq (fuel : Nat) : ∀ n : Nat, n ≤ fuel → digitsFuel fuel n = Nat.digits 10 n := by
  induction fuel with
  | zero =>
    intro n h
    interval_cases n
    exact (Nat.digits_zero 10).symm
  | succ fuel ih =>
    intro n h
    by_cases h0 : n = 0
    · subst h0; simp [digitsFuel]
    · have hb : n / 10 ≤ fuel := by
        have := Nat.div_lt_self (Nat.pos_of_ne_zero h0) (show 1 < 10 by norm_num)
        omega
      rw [digitsFuel, if_neg h0, ih (n / 10) hb]
      exact (Nat.digits_def' (show 1 < 10 by norm_num) (Nat.pos_of_ne_zero h0)).symm

theorem foldr_digits_eq_ofDigits (L : List Nat) (h : ∀ d ∈ L, d < 10) :
    L.foldr (fun d a => 10 * a + digitVal (digitChar d)) 0 = Nat.ofDigits 10 L := by
  induction L with
  | nil => simp [Nat.ofDigits]
  | cons d L ih =>
    rw [List.foldr_cons, ih (fun x hx => h x (List.mem_cons_of_mem _ hx)),
      Nat.ofDigits_cons, digitVal_digitChar d (h d (List.mem_cons_self _ _))]
    ring

theorem parseNatChars_dumpNat (n : Nat) : parseNatChars (dumpNat n) = n := by
  by_cases h0 : n = 0
  · subst h0; decide
  · rw [dumpNat, if_neg h0, digitsFuel_eq n n le_rfl, parseNatChars, List.map_reverse,
      List.foldl_reverse, List.foldr_map]
    rw [foldr_digits_eq_ofDigits _ (fun d hd => Nat.digits_lt_base (by norm_num) hd)]
    exact Nat.ofDigits_digits 10 n

theorem dumpNat_ne_nil (n : Nat) : dumpNat n ≠ [] := by
  rw [dumpNat]
  split_ifs with h
  · simp
  · have hne : digitsFuel n n ≠ [] := by
      obtain ⟨k, rfl⟩ : ∃ k, n = k + 1 := ⟨n - 1, by omega⟩
      rw [digitsFuel, if_neg h]
      simp
    simpa using hne

theorem dumpNat_digits (n : Nat) : ∀ c ∈ dumpNat n, c.isDigit = true := by
  intro c hc
  rw [dumpNat] at hc
  split_ifs at hc with h
  · simp at hc
    subst hc
    decide
  · simp only [List.mem_map, List.mem_reverse] at hc
    obtain ⟨d, _, rfl⟩ := hc
    exact digitChar_isDigit d

theorem jesc_ne_nil (c : Char) : jesc c ≠ [] := by
  unfold jesc; split_ifs <;> simp

theorem jescList_length (s : List Char) : s.length ≤ (jescList s).length := by
  induction s with
  | nil => simp [jescList]
  | cons c s ih =>
    rw [jescList, List.length_append, List.length_cons]
    have h1 : 1 ≤ (jesc c).length := List.length_pos.mpr (jesc_ne_nil c)
    omega

theorem parseStringBody_jesc (s : List Char) : ∀ (fuel : Nat) (rest : List Char),
    s.length < fuel → parseStringBody fuel (jescList s ++ '"' :: rest) = some (s, rest) := by
  induction s with
  | nil =>
    intro fuel rest h
    obtain ⟨f, rfl⟩ : ∃ f, fuel = f + 1 := ⟨fuel - 1, by omega⟩
    simp [jescList, parseStringBody]
  | cons c s ih =>
    intro fuel rest h
    obtain ⟨f, rfl⟩ : ∃ f, fuel = f + 1 := ⟨fuel - 1, by omega⟩
    have hf : s.length < f := by
      rw [List.length_cons] at h
      omega
    rw [jescList, List.append_assoc]
    by_cases h1 : c = '"'
    · subst h1
      simp [jesc, parseStringBody, unescSimple, ih f _ hf]
    by_cases h2 : c = '\\'
    · subst h2
      simp [jesc, parseStringBody, unescSimple, ih f _ hf]
    by_cases h3 : c = '\n'
    · subst h3
      simp [jesc, parseStringBody, unescSimple, ih f _ hf]
    by_cases h4 : c = '\t'
    · subst h4
      simp [jesc, parseStringBody, unescSimple, ih f _ hf]
    by_cases h5 : c = '\r'
    · subst h5
      simp [jesc, parseStringBody, unescSimple, ih f _ hf]
    by_cases h6 : c.toNat < 32
    · have hesc : jesc c =
          ['\\', 'u', '0', '0', hexDigitChar (c.toNat / 16), hexDigitChar (c.toNat % 16)] := by
        unfold jesc
        rw [if_neg h1, if_neg h2, if_neg h3, if_neg h4, if_neg h5, if_pos h6]
      have hdiv : c.toNat / 16 < 16 := by omega
      have hmod : c.toNat % 16 < 16 := Nat.mod_lt _ (by norm_num)
      have hx0 : hexVal '0' = 0 := rfl
      have hx1 : isHexChar '0' = true := by decide
      have h16 : 16 * (c.toNat / 16) + c.toNat % 16 = c.toNat := by omega
      rw [hesc]
      show parseStringBody (f + 1)
        ('\\' :: 'u' :: '0' :: '0' :: hexDigitChar (c.toNat / 16) ::
          hexDigitChar (c.toNat % 16) :: (jescList s ++ '"' :: rest)) = some (c :: s, rest)
      simp [parseStringBody, ih f rest hf, hexDigitChar_isHex _ hdiv, hexDigitChar_isHex _ hmod,
        hexVal_hexDigitChar _ hdiv, hexVal_hexDigitChar _ hmod, hx0, hx1, h16, Char.ofNat_toNat]
    · have hesc : jesc c = [c] := by
        unfold jesc
        rw [if_neg h1, if_neg h2, if_neg h3, if_neg h4, if_neg h5, if_neg h6]
      rw [hesc]
      show parseStringBody (f + 1) (c :: (jescList s ++ '"' :: rest)) = some (c :: s, rest)
      rw [parseStringBody.eq_def]
      simp [h1, h2, ih f rest hf]

/-! ### Round trip: value sizes (lower bounds on the fuel needed) -/

mutual

def sizeVal : Json → Nat
  | .null => 1
  | .bool _ => 1
  | .num _ => 1
  | .str s => s.length + 2
  | .arr es => sizeElems es + 1
  | .obj ms => sizeMembers ms + 1

def sizeElems : List Json → Nat
  | [] => 0
  | e :: rest => sizeVal e + 1 + sizeElems rest

def sizeMembers : List (List Char × Json) → Nat
  | [] => 0
  | (k, v) :: rest => k.length + sizeVal v + 3 + sizeMembers rest

end

theorem sizeVal_pos (v : Json) : 1 ≤ sizeVal v := by
  cases v <;> simp [sizeVal]

theorem sizeElems_mem (es : List Json) (e : Json) (he : e ∈ es) :
    sizeVal e + 1 ≤ sizeElems es := by
  induction es with
  | nil => cases he
  | cons a tail ih =>
    rcases List.mem_cons.mp he with h | h
    · subst h
      show sizeVal e + 1 ≤ sizeVal e + 1 + sizeElems tail
      omega
    · have h2 := ih h
      show sizeVal e + 1 ≤ sizeVal a + 1 + sizeElems tail
      omega

theorem sizeMembers_mem (ms : List (List Char × Json)) (kv : List Char × Json) (hm : kv ∈ ms) :
    sizeVal kv.2 + 1 ≤ sizeMembers ms := by
  induction ms with
  | nil => cases hm
  | cons a tail ih =>
    rcases List.mem_cons.mp hm with h | h
    · subst h
      obtain ⟨k, v⟩ := kv
      show sizeVal v + 1 ≤ k.length + sizeVal v + 3 + sizeMembers tail
      omega
    · have h2 := ih h
      obtain ⟨k, v⟩ := a
      show sizeVal kv.2 + 1 ≤ k.length + sizeVal v + 3 + sizeMembers tail
      omega

theorem dumpVal_ne_nil (v : Json) : dumpVal v ≠ [] := by
  cases v with
  | null => simp [dumpVal]
  | bool b => cases b <;> simp [dumpVal]
  | num n =>
    show dumpInt n ≠ []
    rw [dumpInt]
    split_ifs
    · simp
    · exact dumpNat_ne_nil _
  | str s =>
    show dumpStringLit s ≠ []
    simp [dumpStringLit]
  | arr es => simp [dumpVal]
  | obj ms => simp [dumpVal]

theorem dumpElems_length (elems : List Json) : elems.length ≤ (dumpElems elems).length := by
  induction elems with
  | nil => simp [dumpElems]
  | cons e tail ih =>
    have he : 1 ≤ (dumpVal e).length := List.length_pos.mpr (dumpVal_ne_nil e)
    cases tail with
    | nil =>
      show 1 ≤ (dumpVal e).length
      exact he
    | cons e2 t2 =>
      show (e2 :: t2).length + 1 ≤ ((dumpVal e ++ [',', ' ']) ++ dumpElems (e2 :: t2)).length
      rw [List.length_append, List.length_append]
      have := ih
      simp only [List.length_cons] at this ⊢
      omega

theorem dumpMembers_length (ms : List (List Char × Json)) :
    ms.length ≤ (dumpMembers ms).length := by
  induction ms with
  | nil => simp [dumpMembers]
  | cons a tail ih =>
    obtain ⟨k, v⟩ := a
    have hv : 1 ≤ (dumpVal v).length := List.length_pos.mpr (dumpVal_ne_nil v)
    cases tail with
    | nil =>
      show 1 ≤ ((dumpStringLit k ++ [':', ' ']) ++ dumpVal v).length
      rw [List.length_append]
      omega
    | cons a2 t2 =>
      show (a2 :: t2).length + 1 ≤
        (dumpStringLit k ++ [':', ' '] ++ dumpVal v ++ [',', ' '] ++
          dumpMembers (a2 :: t2)).length
      have h2 := ih
      simp only [dumpStringLit, List.length_append, List.length_cons, List.length_nil] at h2 ⊢
      omega

theorem sizeElems_le (es : List Json) (h : ∀ e ∈ es, sizeVal e ≤ (dumpVal e).length) :
    sizeElems es ≤ (dumpElems es).length + 1 := by
  induction es with
  | nil => simp [sizeElems, dumpElems]
  | cons e tail ih =>
    have he := h e (List.mem_cons_self _ _)
    have ht := ih (fun x hx => h x (List.mem_cons_of_mem _ hx))
    cases tail with
    | nil =>
      show sizeVal e + 1 + sizeElems [] ≤ (dumpVal e).length + 1
      simp [sizeElems]
      omega
    | cons e2 t2 =>
      show sizeVal e + 1 + sizeElems (e2 :: t2) ≤
        ((dumpVal e ++ [',', ' ']) ++ dumpElems (e2 :: t2)).length + 1
      rw [List.length_append, List.length_append]
      simp only [List.length_cons, List.length_nil] at *
      omega

theorem sizeMembers_le (ms : List (List Char × Json))
    (h : ∀ kv ∈ ms, sizeVal kv.2 ≤ (dumpVal kv.2).length) :
    sizeMembers ms ≤ (dumpMembers ms).length + 1 := by
  induction ms with
  | nil => simp [sizeMembers, dumpMembers]
  | cons a tail ih =>
    have ha := h a (List.mem_cons_self _ _)
    have ht := ih (fun x hx => h x (List.mem_cons_of_mem _ hx))
    obtain ⟨k, v⟩ := a
    have hk : k.length ≤ (jescList k).length := jescList_length k
    cases tail with
    | nil =>
      show k.length + sizeVal v + 3 + sizeMembers [] ≤
        ((dumpStringLit k ++ [':', ' ']) ++ dumpVal v).length + 1
      simp only [sizeMembers, dumpStringLit, List.length_append, List.length_cons,
        List.length_nil] at *
      omega
    | cons a2 t2 =>
      show k.length + sizeVal v + 3 + sizeMembers (a2 :: t2) ≤
        (((dumpStringLit k ++ [':', ' ']) ++ dumpVal v ++ [',', ' ']) ++
          dumpMembers (a2 :: t2)).length + 1
      simp only [sizeMembers, dumpStringLit, List.length_append, List.length_cons,
        List.length_nil] at *
      omega

theorem sizeVal_le_dumpLen : ∀ (k : Nat) (v : Json), sizeVal v ≤ k →
    sizeVal v ≤ (dumpVal v).length := by
  intro k
  induction k using Nat.strong_induction_on with
  | _ k ihK =>
  intro v hk
  cases v with
  | null => simp [dumpVal, sizeVal]
  | bool b => cases b <;> simp [dumpVal, sizeVal]
  | num n =>
    show sizeVal (.num n) ≤ (dumpVal (.num n)).length
    have : 1 ≤ (dumpVal (.num n)).length := List.length_pos.mpr (dumpVal_ne_nil _)
    simp only [sizeVal]
    omega
  | str s =>
    show s.length + 2 ≤ ('"' :: jescList s ++ ['"']).length
    have := jescList_length s
    simp only [List.length_cons, List.length_append, List.length_nil]
    omega
  | arr es =>
    have hsz : sizeElems es + 1 ≤ k := hk
    have helems : ∀ e ∈ es, sizeVal e ≤ (dumpVal e).length := by
      intro e he
      have h1 := sizeElems_mem es e he
      exact ihK (sizeVal e) (by omega) e le_rfl
    have := sizeElems_le es helems
    show sizeElems es + 1 ≤ ('[' :: dumpElems es ++ [']']).length
    simp only [List.length_cons, List.length_append, List.length_nil]
    omega
  | obj ms =>
    have hsz : sizeMembers ms + 1 ≤ k := hk
    have hmems : ∀ kv ∈ ms, sizeVal kv.2 ≤ (dumpVal kv.2).length := by
      intro kv hm
      have h1 := sizeMembers_mem ms kv hm
      exact ihK (sizeVal kv.2) (by omega) kv.2 le_rfl
    have := sizeMembers_le ms hmems
    show sizeMembers ms + 1 ≤ ('\x7b' :: dumpMembers ms ++ ['\x7d']).length
    simp only [List.length_cons, List.length_append, List.length_nil]
    omega

/-- The first character of a printed value: never whitespace and never a
closing bracket, so whitespace skipping and end-of-sequence checks cannot
touch it. -/
theorem dumpVal_head (v : Json) : ∃ c cs, dumpVal v = c :: cs ∧ jws c = false ∧
    c ≠ ']' ∧ c ≠ '\x7d' := by
  cases v with
  | null => refine ⟨'n', _, rfl, ?_, ?_, ?_⟩ <;> decide
  | bool b =>
    cases b with
    | false => exact ⟨'f', _, rfl, rfl, by decide, by decide⟩
    | true => refine ⟨'t', _, rfl, rfl, ?_, ?_⟩ <;> decide
  | num n =>
    show ∃ c cs, dumpInt n = c :: cs ∧ _
    rw [dumpInt]
    split_ifs with hneg
    · refine ⟨'-', _, rfl, ?_, ?_, ?_⟩ <;> decide
    · obtain ⟨c, cs, hcs⟩ : ∃ c cs, dumpNat n.toNat = c :: cs := by
        cases hd : dumpNat n.toNat with
        | nil => exact absurd hd (dumpNat_ne_nil _)
        | cons c cs => exact ⟨c, cs, rfl⟩
      have hdig : c.isDigit = true :=
        dumpNat_digits n.toNat c (by rw [hcs]; exact List.mem_cons_self _ _)
      exact ⟨c, cs, hcs, jws_eq_false_of_isDigit c hdig,
        ne_of_isDigit hdig ']' (by decide), ne_of_isDigit hdig '\x7d' (by decide)⟩
  | str s => exact ⟨'"', _, rfl, rfl, by decide, by decide⟩
  | arr es => refine ⟨'[', _, rfl, ?_, ?_, ?_⟩ <;> decide
  | obj ms => exact ⟨'\x7b', _, rfl, rfl, by decide, by decide⟩

/-! ### Round trip: the main induction -/

theorem parseListAux_dump (fv : Nat) :
    ∀ (elems : List Json), elems ≠ [] →
    (∀ e ∈ elems, ∀ ws2 r, (∀ c ∈ ws2, jws c = true) → noDigitHead r →
      parseVal fv (ws2 ++ dumpVal e ++ r) = some (e, r)) →
    ∀ (fuel : Nat) (ws rest0 : List Char), elems.length ≤ fuel →
    (∀ c ∈ ws, jws c = true) →
    parseListAux (parseVal fv) fuel (ws ++ dumpElems elems ++ ']' :: rest0) =
      some (elems, rest0) := by
  intro elems
  induction elems with
  | nil => intro h; exact absurd rfl h
  | cons e tail ih =>
    intro _ helem fuel ws rest0 hfuel hws
    obtain ⟨f2, rfl⟩ : ∃ f2, fuel = f2 + 1 := ⟨fuel - 1, by simp at hfuel; omega⟩
    cases tail with
    | nil =>
      have hin : ws ++ dumpElems [e] ++ ']' :: rest0 = ws ++ dumpVal e ++ ']' :: rest0 := rfl
      rw [parseListAux, hin,
        helem e (List.mem_cons_self _ _) ws (']' :: rest0) hws
          (noDigitHead_cons _ _ (by decide))]
      simp [skipWs_cons ']' rest0 (by decide)]
    | cons e2 t2 =>
      have hin : ws ++ dumpElems (e :: e2 :: t2) ++ ']' :: rest0 =
          ws ++ dumpVal e ++ (',' :: ' ' :: (dumpElems (e2 :: t2) ++ ']' :: rest0)) := by
        show ws ++ (dumpVal e ++ [',', ' '] ++ dumpElems (e2 :: t2)) ++ ']' :: rest0 = _
        simp
      rw [parseListAux, hin,
        helem e (List.mem_cons_self _ _) ws _ hws (noDigitHead_cons _ _ (by decide))]
      have hrec : parseListAux (parseVal fv) f2
          (' ' :: (dumpElems (e2 :: t2) ++ ']' :: rest0)) = some (e2 :: t2, rest0) := by
        have h2 := ih (by simp) (fun x hx => helem x (List.mem_cons_of_mem _ hx)) f2 [' ']
          rest0 (by simp at hfuel ⊢; omega) (by intro c hc; simp at hc; subst hc; decide)
        simpa using h2
      simp [skipWs_cons ',' _ (by decide), hrec]

theorem parseObjAux_dump (fv : Nat) :
    ∀ (ms : List (List Char × Json)), ms ≠ [] →
    (∀ kv ∈ ms, ∀ ws2 r, (∀ c ∈ ws2, jws c = true) → noDigitHead r →
      parseVal fv (ws2 ++ dumpVal kv.2 ++ r) = some (kv.2, r)) →
    ∀ (fuel : Nat) (ws rest0 : List Char), ms.length ≤ fuel →
    (∀ c ∈ ws, jws c = true) →
    parseObjAux (parseVal fv) fuel (ws ++ dumpMembers ms ++ '\x7d' :: rest0) =
      some (ms, rest0) := by
  intro ms
  induction ms with
  | nil => intro h; exact absurd rfl h
  | cons a tail ih =>
    intro _ helem fuel ws rest0 hfuel hws
    obtain ⟨k, v⟩ := a
    obtain ⟨f2, rfl⟩ : ∃ f2, fuel = f2 + 1 := ⟨fuel - 1, by simp at hfuel; omega⟩
    cases tail with
    | nil =>
      have hin : ws ++ dumpMembers [(k, v)] ++ '\x7d' :: rest0 =
          ws ++ ('"' :: (jescList k ++ '"' ::
            (':' :: ' ' :: (dumpVal v ++ '\x7d' :: rest0)))) := by
        show ws ++ (dumpStringLit k ++ [':', ' '] ++ dumpVal v) ++ '\x7d' :: rest0 = _
        simp [dumpStringLit]
      have hkey : parseStringBody
          ((jescList k ++ '"' :: (':' :: ' ' :: (dumpVal v ++ '\x7d' :: rest0))).length + 1)
          (jescList k ++ '"' :: (':' :: ' ' :: (dumpVal v ++ '\x7d' :: rest0))) =
          some (k, ':' :: ' ' :: (dumpVal v ++ '\x7d' :: rest0)) := by
        apply parseStringBody_jesc
        have := jescList_length k
        simp only [List.length_append, List.length_cons]
        omega
      have hv : parseVal fv (' ' :: (dumpVal v ++ '\x7d' :: rest0)) =
          some (v, '\x7d' :: rest0) := by
        have h2 := helem (k, v) (List.mem_cons_self _ _) [' '] ('\x7d' :: rest0)
          (by intro c hc; simp at hc; subst hc; decide) (noDigitHead_cons _ _ (by decide))
        simpa using h2
      rw [parseObjAux, hin, skipWs_ws_append ws _ hws, skipWs_cons '"' _ (by decide)]
      simp only [reduceIte, hkey, skipWs_cons ':' _ (by decide), hv,
        skipWs_cons '\x7d' _ (by decide),
        if_neg (show ('\x7d' : Char) ≠ ',' by decide), ite_true]
    | cons a2 t2 =>
      have hin : ws ++ dumpMembers ((k, v) :: a2 :: t2) ++ '\x7d' :: rest0 =
          ws ++ ('"' :: (jescList k ++ '"' :: (':' :: ' ' ::
            (dumpVal v ++ ',' :: ' ' :: (dumpMembers (a2 :: t2) ++ '\x7d' :: rest0))))) := by
        show ws ++ (dumpStringLit k ++ [':', ' '] ++ dumpVal v ++ [',', ' '] ++
          dumpMembers (a2 :: t2)) ++ '\x7d' :: rest0 = _
        simp [dumpStringLit]
      have hkey : parseStringBody
          ((jescList k ++ '"' :: (':' :: ' ' ::
            (dumpVal v ++ ',' :: ' ' :: (dumpMembers (a2 :: t2) ++ '\x7d' :: rest0)))).length + 1)
          (jescList k ++ '"' :: (':' :: ' ' ::
            (dumpVal v ++ ',' :: ' ' :: (dumpMembers (a2 :: t2) ++ '\x7d' :: rest0)))) =
          some (k, ':' :: ' ' ::
            (dumpVal v ++ ',' :: ' ' :: (dumpMembers (a2 :: t2) ++ '\x7d' :: rest0))) := by
        apply parseStringBody_jesc
        have := jescList_length k
        simp only [List.length_append, List.length_cons]
        omega
      have hv : parseVal fv
          (' ' :: (dumpVal v ++ ',' :: ' ' :: (dumpMembers (a2 :: t2) ++ '\x7d' :: rest0))) =
          some (v, ',' :: ' ' :: (dumpMembers (a2 :: t2) ++ '\x7d' :: rest0)) := by
        have h2 := helem (k, v) (List.mem_cons_self _ _) [' ']
          (',' :: ' ' :: (dumpMembers (a2 :: t2) ++ '\x7d' :: rest0))
          (by intro c hc; simp at hc; subst hc; decide) (noDigitHead_cons _ _ (by decide))
        simpa using h2
      have hrec : parseObjAux (parseVal fv) f2
          (' ' :: (dumpMembers (a2 :: t2) ++ '\x7d' :: rest0)) = some (a2 :: t2, rest0) := by
        have h2 := ih (by simp) (fun x hx => helem x (List.mem_cons_of_mem _ hx)) f2 [' ']
          rest0 (by simp at hfuel ⊢; omega) (by intro c hc; simp at hc; subst hc; decide)
        simpa using h2
      rw [parseObjAux, hin, skipWs_ws_append ws _ hws, skipWs_cons '"' _ (by decide)]
      simp only [reduceIte, hkey, skipWs_cons ':' _ (by decide), hv,
        skipWs_cons ',' _ (by decide), hrec]

theorem parseVal_dump : ∀ (fuelV : Nat) (v : Json) (ws rest : List Char),
    sizeVal v ≤ fuelV → (∀ c ∈ ws, jws c = true) → noDigitHead rest →
    parseVal fuelV (ws ++ dumpVal v ++ rest) = some (v, rest) := by
  intro fuelV
  induction fuelV using Nat.strong_induction_on with
  | _ fuelV ihF =>
  intro v ws rest hsize hws hrest
  obtain ⟨f, rfl⟩ : ∃ f, fuelV = f + 1 := ⟨fuelV - 1, by have := sizeVal_pos v; omega⟩
  cases v with
  | null =>
    have hskip : skipWs (ws ++ dumpVal Json.null ++ rest) = 'n' :: ('u' :: 'l' :: 'l' :: rest) := by
      rw [List.append_assoc, skipWs_ws_append _ _ hws]
      exact skipWs_cons _ _ (by decide)
    rw [parseVal, hskip]
    simp only [reduceIte, stripPre]
  | bool b =>
    cases b with
    | true =>
      have hskip : skipWs (ws ++ dumpVal (Json.bool true) ++ rest) =
          't' :: ('r' :: 'u' :: 'e' :: rest) := by
        rw [List.append_assoc, skipWs_ws_append _ _ hws]
        exact skipWs_cons _ _ (by decide)
      rw [parseVal, hskip]
      simp only [reduceIte, stripPre, if_neg (show ('t' : Char) ≠ 'n' by decide)]
    | false =>
      have hskip : skipWs (ws ++ dumpVal (Json.bool false) ++ rest) =
          'f' :: ('a' :: 'l' :: 's' :: 'e' :: rest) := by
        rw [List.append_assoc, skipWs_ws_append _ _ hws]
        exact skipWs_cons _ _ (by decide)
      rw [parseVal, hskip]
      simp only [reduceIte, stripPre, if_neg (show ('f' : Char) ≠ 'n' by decide),
        if_neg (show ('f' : Char) ≠ 't' by decide)]
  | str s =>
    have harr : dumpVal (Json.str s) ++ rest = '"' :: (jescList s ++ '"' :: rest) := by
      show dumpStringLit s ++ rest = _
      simp [dumpStringLit]
    have hskip : skipWs (ws ++ dumpVal (Json.str s) ++ rest) =
        '"' :: (jescList s ++ '"' :: rest) := by
      rw [List.append_assoc, skipWs_ws_append _ _ hws, harr]
      exact skipWs_cons _ _ (by decide)
    have hbody : parseStringBody ((jescList s ++ '"' :: rest).length + 1)
        (jescList s ++ '"' :: rest) = some (s, rest) := by
      apply parseStringBody_jesc
      have := jescList_length s
      simp only [List.length_append, List.length_cons]
      omega
    rw [parseVal, hskip]
    simp only [reduceIte, hbody, if_neg (show ('"' : Char) ≠ 'n' by decide),
      if_neg (show ('"' : Char) ≠ 't' by decide), if_neg (show ('"' : Char) ≠ 'f' by decide)]
  | num n =>
    by_cases hneg : n < 0
    · have harr : dumpVal (Json.num n) ++ rest = '-' :: (dumpNat n.natAbs ++ rest) := by
        show dumpInt n ++ rest = _
        rw [dumpInt, if_pos hneg, List.cons_append]
      have hskip : skipWs (ws ++ dumpVal (Json.num n) ++ rest) =
          '-' :: (dumpNat n.natAbs ++ rest) := by
        rw [List.append_assoc, skipWs_ws_append _ _ hws, harr]
        exact skipWs_cons _ _ (by decide)
      have htw : (dumpNat n.natAbs ++ rest).takeWhile (fun d => d.isDigit) = dumpNat n.natAbs :=
        takeWhile_digits _ _ (dumpNat_digits _) hrest
      have hdrop : (dumpNat n.natAbs ++ rest).drop (dumpNat n.natAbs).length = rest :=
        List.drop_left _ _
      have hnn : dumpNat n.natAbs ≠ [] := dumpNat_ne_nil _
      have hval : -(parseNatChars (dumpNat n.natAbs) : Int) = n := by
        rw [parseNatChars_dumpNat]
        omega
      rw [parseVal, hskip]
      simp only [reduceIte, htw, hdrop, hval, if_neg hnn,
        if_neg (show ('-' : Char) ≠ 'n' by decide), if_neg (show ('-' : Char) ≠ 't' by decide),
        if_neg (show ('-' : Char) ≠ 'f' by decide), if_neg (show ('-' : Char) ≠ '"' by decide),
        if_neg (show ('-' : Char) ≠ '[' by decide), if_neg (show ('-' : Char) ≠ '\x7b' by decide)]
    · obtain ⟨c, cs, hd⟩ : ∃ c cs, dumpNat n.toNat = c :: cs := by
        cases hdd : dumpNat n.toNat with
        | nil => exact absurd hdd (dumpNat_ne_nil _)
        | cons c cs => exact ⟨c, cs, rfl⟩
      have hdig : c.isDigit = true :=
        dumpNat_digits n.toNat c (by rw [hd]; exact List.mem_cons_self _ _)
      have harr : dumpVal (Json.num n) ++ rest = c :: (cs ++ rest) := by
        show dumpInt n ++ rest = _
        rw [dumpInt, if_neg hneg, hd, List.cons_append]
      have hskip : skipWs (ws ++ dumpVal (Json.num n) ++ rest) = c :: (cs ++ rest) := by
        rw [List.append_assoc, skipWs_ws_append _ _ hws, harr]
        exact skipWs_cons _ _ (jws_eq_false_of_isDigit c hdig)
      have htw : (c :: (cs ++ rest)).takeWhile (fun d => d.isDigit) = c :: cs := by
        have h2 := takeWhile_digits (c :: cs) rest (by rw [← hd]; exact dumpNat_digits _) hrest
        simpa using h2
      have hdrop : (c :: (cs ++ rest)).drop (c :: cs).length = rest := by
        have h2 := List.drop_left (c :: cs) rest
        exact h2
      have hval : (parseNatChars (c :: cs) : Int) = n := by
        rw [← hd, parseNatChars_dumpNat]
        omega
      rw [parseVal, hskip]
      simp only [reduceIte, if_neg (ne_of_isDigit hdig 'n' (by decide)),
        if_neg (ne_of_isDigit hdig 't' (by decide)),
        if_neg (ne_of_isDigit hdig 'f' (by decide)),
        if_neg (ne_of_isDigit hdig '"' (by decide)),
        if_neg (ne_of_isDigit hdig '[' (by decide)),
        if_neg (ne_of_isDigit hdig '\x7b' (by decide)),
        if_neg (ne_of_isDigit hdig '-' (by decide)),
        hdig, if_pos, htw, hdrop, hval, ite_true]
  | arr es =>
    cases es with
    | nil =>
      have hskip : skipWs (ws ++ dumpVal (Json.arr []) ++ rest) = '[' :: ']' :: rest := by
        rw [List.append_assoc, skipWs_ws_append _ _ hws]
        exact skipWs_cons _ _ (by decide)
      rw [parseVal, hskip]
      simp only [reduceIte, skipWs_cons ']' rest (by decide),
        if_neg (show ('[' : Char) ≠ 'n' by decide), if_neg (show ('[' : Char) ≠ 't' by decide),
        if_neg (show ('[' : Char) ≠ 'f' by decide), if_neg (show ('[' : Char) ≠ '"' by decide)]
    | cons e tail =>
      obtain ⟨c, cs, hdv, hcws, hcrb, _⟩ := dumpVal_head e
      obtain ⟨tl, htl⟩ : ∃ tl, dumpElems (e :: tail) = dumpVal e ++ tl := by
        cases tail with
        | nil => exact ⟨[], by simp [dumpElems]⟩
        | cons e2 t2 => exact ⟨[',', ' '] ++ dumpElems (e2 :: t2), List.append_assoc _ _ _⟩
      have harr : dumpVal (Json.arr (e :: tail)) ++ rest =
          '[' :: (dumpElems (e :: tail) ++ ']' :: rest) := by
        show ('[' :: dumpElems (e :: tail) ++ [']']) ++ rest = _
        simp
      have hskip : skipWs (ws ++ dumpVal (Json.arr (e :: tail)) ++ rest) =
          '[' :: (dumpElems (e :: tail) ++ ']' :: rest) := by
        rw [List.append_assoc, skipWs_ws_append _ _ hws, harr]
        exact skipWs_cons _ _ (by decide)
      have hskip2 : skipWs (dumpElems (e :: tail) ++ ']' :: rest) =
          c :: (cs ++ tl ++ ']' :: rest) := by
        rw [htl, hdv]
        have hsh : ((c :: cs) ++ tl) ++ ']' :: rest = c :: (cs ++ tl ++ ']' :: rest) := by
          simp
        rw [hsh]
        exact skipWs_cons _ _ hcws
      have helem : ∀ x ∈ (e :: tail), ∀ ws2 r, (∀ ch ∈ ws2, jws ch = true) → noDigitHead r →
          parseVal f (ws2 ++ dumpVal x ++ r) = some (x, r) := by
        intro x hx ws2 r hws2 hr
        apply ihF f (by omega) x ws2 r _ hws2 hr
        have h1 := sizeElems_mem (e :: tail) x hx
        have h2 : sizeElems (e :: tail) + 1 ≤ f + 1 := hsize
        omega
      have hbound : (e :: tail).length ≤ (dumpElems (e :: tail) ++ ']' :: rest).length + 1 := by
        have h2 := dumpElems_length (e :: tail)
        simp only [List.length_append, List.length_cons] at h2 ⊢
        omega
      have hloop : parseListAux (parseVal f) ((dumpElems (e :: tail) ++ ']' :: rest).length + 1)
          (dumpElems (e :: tail) ++ ']' :: rest) = some (e :: tail, rest) := by
        have h2 := parseListAux_dump f (e :: tail) (by simp) helem
          ((dumpElems (e :: tail) ++ ']' :: rest).length + 1) [] rest hbound (by simp)
        simpa using h2
      rw [parseVal, hskip]
      simp only [reduceIte, hskip2, if_neg hcrb, hloop,
        if_neg (show ('[' : Char) ≠ 'n' by decide), if_neg (show ('[' : Char) ≠ 't' by decide),
        if_neg (show ('[' : Char) ≠ 'f' by decide), if_neg (show ('[' : Char) ≠ '"' by decide)]
  | obj ms =>
    cases ms with
    | nil =>
      have hskip : skipWs (ws ++ dumpVal (Json.obj []) ++ rest) = '\x7b' :: '\x7d' :: rest := by
        rw [List.append_assoc, skipWs_ws_append _ _ hws]
        exact skipWs_cons _ _ (by decide)
      rw [parseVal, hskip]
      simp only [reduceIte, skipWs_cons '\x7d' rest (by decide),
        if_neg (show ('\x7b' : Char) ≠ 'n' by decide),
        if_neg (show ('\x7b' : Char) ≠ 't' by decide),
        if_neg (show ('\x7b' : Char) ≠ 'f' by decide),
        if_neg (show ('\x7b' : Char) ≠ '"' by decide),
        if_neg (show ('\x7b' : Char) ≠ '[' by decide)]
    | cons a tail =>
      obtain ⟨k, v⟩ := a
      obtain ⟨tl, htl⟩ : ∃ tl, dumpMembers ((k, v) :: tail) = '"' :: tl := by
        cases tail with
        | nil =>
          refine ⟨jescList k ++ '"' :: ':' :: ' ' :: dumpVal v, ?_⟩
          show dumpStringLit k ++ [':', ' '] ++ dumpVal v = _
          simp [dumpStringLit]
        | cons a2 t2 =>
          refine ⟨jescList k ++ '"' :: ':' :: ' ' ::
            (dumpVal v ++ ',' :: ' ' :: dumpMembers (a2 :: t2)), ?_⟩
          show dumpStringLit k ++ [':', ' '] ++ dumpVal v ++ [',', ' '] ++
            dumpMembers (a2 :: t2) = _
          simp [dumpStringLit]
      have harr : dumpVal (Json.obj ((k, v) :: tail)) ++ rest =
          '\x7b' :: (dumpMembers ((k, v) :: tail) ++ '\x7d' :: rest) := by
        show ('\x7b' :: dumpMembers ((k, v) :: tail) ++ ['\x7d']) ++ rest = _
        simp
      have hskip : skipWs (ws ++ dumpVal (Json.obj ((k, v) :: tail)) ++ rest) =
          '\x7b' :: (dumpMembers ((k, v) :: tail) ++ '\x7d' :: rest) := by
        rw [List.append_assoc, skipWs_ws_append _ _ hws, harr]
        exact skipWs_cons _ _ (by decide)
      have hskip2 : skipWs (dumpMembers ((k, v) :: tail) ++ '\x7d' :: rest) =
          '"' :: (tl ++ '\x7d' :: rest) := by
        rw [htl, List.cons_append]
        exact skipWs_cons _ _ (by decide)
      have helem : ∀ kv ∈ ((k, v) :: tail), ∀ ws2 r, (∀ ch ∈ ws2, jws ch = true) →
          noDigitHead r → parseVal f (ws2 ++ dumpVal kv.2 ++ r) = some (kv.2, r) := by
        intro kv hkv ws2 r hws2 hr
        apply ihF f (by omega) kv.2 ws2 r _ hws2 hr
        have h1 := sizeMembers_mem ((k, v) :: tail) kv hkv
        have h2 : sizeMembers ((k, v) :: tail) + 1 ≤ f + 1 := hsize
        omega
      have hbound : ((k, v) :: tail).length ≤
          (dumpMembers ((k, v) :: tail) ++ '\x7d' :: rest).length + 1 := by
        have h2 := dumpMembers_length ((k, v) :: tail)
        simp only [List.length_append, List.length_cons] at h2 ⊢
        omega
      have hloop : parseObjAux (parseVal f)
          ((dumpMembers ((k, v) :: tail) ++ '\x7d' :: rest).length + 1)
          (dumpMembers ((k, v) :: tail) ++ '\x7d' :: rest) = some ((k, v) :: tail, rest) := by
        have h2 := parseObjAux_dump f ((k, v) :: tail) (by simp) helem
          ((dumpMembers ((k, v) :: tail) ++ '\x7d' :: rest).length + 1) [] rest hbound (by simp)
        simpa using h2
      rw [parseVal, hskip]
      simp only [reduceIte, hskip2, if_neg (show ('"' : Char) ≠ '\x7d' by decide), hloop,
        if_neg (show ('\x7b' : Char) ≠ 'n' by decide),
        if_neg (show ('\x7b' : Char) ≠ 't' by decide),
        if_neg (show ('\x7b' : Char) ≠ 'f' by decide),
        if_neg (show ('\x7b' : Char) ≠ '"' by decide),
        if_neg (show ('\x7b' : Char) ≠ '[' by decide)]

/-- `json.load` inverts `json.dumps` on every modelled JSON value. -/
theorem loads_dumps (v : Json) : loads (dumps v) = some v := by
  have hsz : sizeVal v ≤ (dumpVal v).length + 1 :=
    le_trans (sizeVal_le_dumpLen (sizeVal v) v le_rfl) (by omega)
  have hmain := parseVal_dump ((dumpVal v).length + 1) v [] [] hsz (by simp) noDigitHead_nil
  simp only [List.nil_append, List.append_nil] at hmain
  have hdata : (dumps v).data = dumpVal v := rfl
  rw [loads, hdata, hmain]
  simp [skipWs]


/-! ## Schema persistence (src/spark/utils.py lines 65-88) -/

/-- Embedding of `save_schema`: `json.dump(schema, f, indent=2, ensure_ascii=False)`.
`indent=2` only inserts inter-token whitespace (which `load_schema`'s
reader skips), so the token stream is modelled in the compact form produced
by `dumps`. -/
def save_schema (schema : Json) : String := dumps schema

/-- Embedding of `load_schema`: `json.load(f)` on the saved file content. -/
def load_schema (fileContent : String) : Option Json := loads fileContent

/-! ## Schema validation (`validate_schema`, src/spark/utils.py lines 130-162) -/

/-- Python dict lookup with a string key (`d[k]` / `k in d`). -/
def jlookup (k : String) : List (List Char × Json) → Option Json
  | [] => none
  | kv :: rest => if kv.1 = k.data then some kv.2 else jlookup k rest

/-- The per-entity loop of `validate_schema` (src/spark/utils.py
lines 152-160): reports the first offending entity. -/
def validate_entities : List Json → Bool × String
  | [] => (true, "")
  | e :: rest =>
    match e with
    | .obj fields =>
      if (jlookup "name" fields).isNone then (false, "Each entity must have a 'name' field")
      else
        match jlookup "examples" fields with
        | some (.arr _) => validate_entities rest
        | _ => (false, "Each entity must have an 'examples' list")
    | _ => (false, "Each entity must be a dictionary")

/-- Embedding of `validate_schema` (src/spark/utils.py lines 130-162). -/
def validate_schema (schema : Json) : Bool × String :=
  match schema with
  | .obj kvs =>
    if (jlookup "context" kvs).isNone then (false, "Schema must contain 'context' field")
    else
      match jlookup "entities" kvs with
      | some (.arr entities) =>
        if entities.length = 0 then (false, "Schema must contain at least one entity")
        else validate_entities entities
      | _ => (false, "Schema must contain 'entities' list")
  | _ => (false, "Schema must be a dictionary")

/-! ## Derived extraction instructions (src/spark/app.py lines 107-114 and 146-158)

The code builds an indented triple-quoted f-string and passes it through
`textwrap.dedent`.  `textwrap_dedent` models CPython's `textwrap.dedent`:
whitespace-only lines are normalized to empty, the margin is the longest
common whitespace prefix of the remaining lines, and the margin is removed
from every line that starts with it. -/

def isIndentChar (c : Char) : Bool := c = ' ' || c = '\t'

def splitNl : List Char → List (List Char)
  | [] => [[]]
  | c :: rest =>
    let r := splitNl rest
    if c = '\n' then [] :: r
    else
      match r with
      | [] => [[c]]
      | l :: ls => (c :: l) :: ls

def joinNl : List (List Char) → List Char
  | [] => []
  | [l] => l
  | l :: ls => l ++ '\n' :: joinNl ls

def wsPrefix (l : List Char) : List Char := l.takeWhile isIndentChar

def hasContent (l : List Char) : Bool := !(l.dropWhile isIndentChar).isEmpty

def commonPre : List Char → List Char → List Char
  | a :: as, b :: bs => if a = b then a :: commonPre as bs else []
  | _, _ => []

def dedentMargin (lines : List (List Char)) : List Char :=
  match lines.filter hasContent with
  | [] => []
  | l :: ls => ls.foldl (fun m l2 => commonPre m (wsPrefix l2)) (wsPrefix l)

def stripMargin (margin : List Char) (l : List Char) : List Char :=
  if margin.isPrefixOf l then l.drop margin.length else l

def textwrap_dedent (s : String) : String :=
  let lines := (splitNl s.data).map (fun l => if hasContent l then l else [])
  let margin := dedentMargin lines
  String.mk (joinNl (lines.map (stripMargin margin)))

/-- The indented f-string of src/spark/app.py lines 149-152 (the identical
template at lines 111-114 carries a 20-space margin instead of 12 and
dedents to the same result). -/
def prompt_template (entity_list : String) : String :=
  "            Extract " ++ entity_list ++
    " in order of appearance.\n            Use exact text for extractions. Do not paraphrase or overlap entities.\n            Provide meaningful attributes for each entity to add context."

/-- The derived `prompt_description`: `', '.join(entity_names)` interpolated
into the template, then dedented (src/spark/app.py lines 147-152). -/
def prompt_description_of (entity_names : List String) : String :=
  textwrap_dedent (prompt_template (pyJoin ", " entity_names))

/-! ## Visualization generator (`generate_interactive_html`, src/spark/app.py lines 481-727)

The f-string template of lines 523-725 is transcribed literally into the
chunks below (`\x7b`/`\x7d` denote the literal braces written `{{`/`}}` in
the f-string), split at its eight interpolation points. -/

/-- The fixed 10-color palette (src/spark/app.py lines 495-498). -/
def colorsList : List String :=
  ["#FFB6C1", "#87CEEB", "#90EE90", "#FFD700", "#DDA0DD",
   "#FFA07A", "#98FB98", "#DEB887", "#F0E68C", "#E0BBE4"]

/-- The `{'text':…, 'start':…, 'end':…}` dict built for one span
(src/spark/app.py lines 506-510). -/
def spanJson (e : Extraction) : Json :=
  .obj [("text".data, .str e.extraction_text.data),
        ("start".data, .num e.start_pos),
        ("end".data, .num e.end_pos)]

/-- One step of the grouping loop of src/spark/app.py lines 501-510: create
the class's bucket on first sight, then append the span dict.  No offset
validation of any kind is performed. -/
def entity_groups_add (g : List (String × List Json)) (e : Extraction) :
    List (String × List Json) :=
  let g2 := if g.any (fun kv => kv.1 = e.extraction_class) then g
            else g ++ [(e.extraction_class, [])]
  g2.map (fun kv =>
    if kv.1 = e.extraction_class then (kv.1, kv.2 ++ [spanJson e]) else kv)

def entity_groups (exs : List Extraction) : List (String × List Json) :=
  exs.foldl entity_groups_add []

/-- Python dict assignment `d[k] = v` (overwrite in place, or append). -/
def pyDictUpdate {V : Type} (d : List (String × V)) (k : String) (v : V) :
    List (String × V) :=
  if d.any (fun kv => kv.1 = k) then
    d.map (fun kv => if kv.1 = k then (k, v) else kv)
  else d ++ [(k, v)]

/-- `entity_colors` (src/spark/app.py line 513):
`{name: colors[i % len(colors)] for i, name in enumerate(entity_names)}`. -/
def entity_colors (entity_names : List String) : List (String × String) :=
  entity_names.enum.foldl
    (fun d p => pyDictUpdate d p.2 (colorsList.getD (p.1 % colorsList.length) "")) []

/-- `js_entities` (src/spark/app.py lines 516-521): one key per entity
name, holding that name's group (or `[]`). -/
def js_entities (entity_names : List String) (exs : List Extraction) :
    List (String × List Json) :=
  entity_names.foldl
    (fun d n => pyDictUpdate d n ((alookup n (entity_groups exs)).getD [])) []

/-- The JS `escapeHtml` helper of the template (src/spark/app.py
lines 705-709): assigning `textContent` and reading back `innerHTML`
escapes the markup-significant characters. -/
def escapeHtml (text : String) : String :=
  String.mk (text.data.foldr (fun c acc =>
    if c = '&' then "&amp;".data ++ acc
    else if c = '<' then "&lt;".data ++ acc
    else if c = '>' then "&gt;".data ++ acc
    else c :: acc) [])

def htmlTpl0 : String := "\n<!DOCTYPE html>\n<html lang=\"en\">\n<head>\n    <meta charset=\"UTF-8\">\n    <meta name=\"viewport\" content=\"width=device-width, initial-scale=1.0\">\n    <title>Extraction Result - Record "

def htmlTpl1 : String := "</title>\n    <style>\n        body \x7b\n            font-family: 'Segoe UI', Tahoma, Geneva, Verdana, sans-serif;\n            max-width: 1200px;\n            margin: 0 auto;\n            padding: 20px;\n            background-color: #f5f5f5;\n        \x7d\n        .header \x7b\n            background-color: #2c3e50;\n            color: white;\n            padding: 20px;\n            border-radius: 8px;\n            margin-bottom: 20px;\n        \x7d\n        .header h1 \x7b\n            margin: 0;\n            font-size: 24px;\n        \x7d\n        .controls \x7b\n            background-color: white;\n            padding: 20px;\n            border-radius: 8px;\n            margin-bottom: 20px;\n            box-shadow: 0 2px 4px rgba(0,0,0,0.1);\n        \x7d\n        .button-group \x7b\n            display: flex;\n            flex-wrap: wrap;\n            gap: 10px;\n        \x7d\n        .entity-button \x7b\n            padding: 10px 20px;\n            border: 2px solid #ddd;\n            border-radius: 6px;\n            cursor: pointer;\n            font-size: 14px;\n            font-weight: 500;\n            transition: all 0.3s;\n            background-color: white;\n        \x7d\n        .entity-button:hover \x7b\n            transform: translateY(-2px);\n            box-shadow: 0 4px 8px rgba(0,0,0,0.2);\n        \x7d\n        .entity-button.active \x7b\n            border-width: 3px;\n            box-shadow: 0 4px 12px rgba(0,0,0,0.3);\n        \x7d\n        .text-container \x7b\n            background-color: white;\n            padding: 30px;\n            border-radius: 8px;\n            line-height: 1.8;\n            font-size: 16px;\n            box-shadow: 0 2px 4px rgba(0,0,0,0.1);\n            white-space: pre-wrap;\n            word-wrap: break-word;\n        \x7d\n        .highlight \x7b\n            padding: 2px 4px;\n            border-radius: 3px;\n            font-weight: 500;\n            transition: all 0.2s;\n        \x7d\n        .stats \x7b\n            background-color: white;\n            padding: 15px;\n            border-radius: 8px;\n            margin-bottom: 20px;\n            box-shadow: 0 2px 4px rgba(0,0,0,0.1);\n        \x7d\n        .stats-item \x7b\n            display: inline-block;\n            margin-right: 20px;\n            font-size: 14px;\n        \x7d\n        .stats-label \x7b\n            font-weight: bold;\n            color: #2c3e50;\n        \x7d\n    </style>\n</head>\n<body>\n    <div class=\"header\">\n        <h1>Extraction Results - Record "

def htmlTpl2 : String := "</h1>\n    </div>\n\n    <div class=\"stats\">\n        <div class=\"stats-item\">\n            <span class=\"stats-label\">Total Extractions:</span>\n            <span id=\"total-extractions\">"

def htmlTpl3 : String := "</span>\n        </div>\n        <div class=\"stats-item\">\n            <span class=\"stats-label\">Entity Types:</span>\n            <span>"

def htmlTpl4 : String := "</span>\n        </div>\n    </div>\n\n    <div class=\"controls\">\n        <h3 style=\"margin-top: 0;\">Entity Types (Click to Highlight)</h3>\n        <div class=\"button-group\" id=\"button-group\">\n            <!-- Buttons will be added by JavaScript -->\n        </div>\n    </div>\n\n    "

/-- The opening of the text container into which the f-string interpolates
the raw record text (src/spark/app.py lines 636-638). -/
def textContainerOpen : String := "<div class=\"text-container\" id=\"text-container\">\n        "

def htmlTpl5 : String := "\n    </div>\n\n    <script>\n        const entities = "

def htmlTpl6 : String := ";\n        const colors = "

def htmlTpl7 : String := ";\n        const originalText = "

def htmlTpl8 : String := ";\n\n        let activeEntity = null;\n\n        function createButtons() \x7b\n            const buttonGroup = document.getElementById('button-group');\n\n            for (const [entityType, extractions] of Object.entries(entities)) \x7b\n                if (extractions.length > 0) \x7b\n                    const button = document.createElement('button');\n                    button.className = 'entity-button';\n                    button.textContent = `$\x7bentityType\x7d ($\x7bextractions.length\x7d)`;\n                    button.style.backgroundColor = colors[entityType];\n                    button.style.borderColor = colors[entityType];\n                    button.onclick = () => toggleHighlight(entityType, button);\n                    buttonGroup.appendChild(button);\n                \x7d\n            \x7d\n        \x7d\n\n        function toggleHighlight(entityType, button) \x7b\n            const allButtons = document.querySelectorAll('.entity-button');\n\n            if (activeEntity === entityType) \x7b\n                // Deactivate\n                activeEntity = null;\n                button.classList.remove('active');\n                showOriginalText();\n            \x7d else \x7b\n                // Activate\n                activeEntity = entityType;\n                allButtons.forEach(b => b.classList.remove('active'));\n                button.classList.add('active');\n                highlightEntities(entityType);\n            \x7d\n        \x7d\n\n        function showOriginalText() \x7b\n            document.getElementById('text-container').textContent = originalText;\n        \x7d\n\n        function highlightEntities(entityType) \x7b\n            const extractions = entities[entityType];\n            const color = colors[entityType];\n\n            // Sort extractions by start position (descending) to avoid position shift\n            const sortedExtractions = [...extractions].sort((a, b) => b.start - a.start);\n\n            let highlightedText = originalText;\n\n            for (const extraction of sortedExtractions) \x7b\n                const before = highlightedText.substring(0, extraction.start);\n                const match = highlightedText.substring(extraction.start, extraction.end);\n                const after = highlightedText.substring(extraction.end);\n\n                const highlighted = `<span class=\"highlight\" style=\"background-color: $\x7bcolor\x7d; border: 2px solid $\x7bdarkenColor(color)\x7d;\">$\x7bescapeHtml(match)\x7d</span>`;\n                highlightedText = before + highlighted + after;\n            \x7d\n\n            document.getElementById('text-container').innerHTML = highlightedText;\n        \x7d\n\n        function escapeHtml(text) \x7b\n            const div = document.createElement('div');\n            div.textContent = text;\n            return div.innerHTML;\n        \x7d\n\n        function darkenColor(color) \x7b\n            // Simple color darkening\n            const hex = color.replace('#', '');\n            const r = Math.max(0, parseInt(hex.substr(0, 2), 16) - 40);\n            const g = Math.max(0, parseInt(hex.substr(2, 2), 16) - 40);\n            const b = Math.max(0, parseInt(hex.substr(4, 2), 16) - 40);\n            return `#$\x7br.toString(16).padStart(2, '0')\x7d$\x7bg.toString(16).padStart(2, '0')\x7d$\x7bb.toString(16).padStart(2, '0')\x7d`;\n        \x7d\n\n        // Initialize\n        createButtons();\n    </script>\n</body>\n</html>\n"

/-- Embedding of `generate_interactive_html` (src/spark/app.py
lines 481-727).  `result` stands for `result.extractions`.  Note that the
record text is interpolated into the text container and into the JSON
`originalText` literal exactly as the f-string does: the container receives
the raw text with no HTML escaping. -/
def generate_interactive_html (record_number : Nat) (text : String)
    (result : List Extraction) (entity_names : List String) : String :=
  let js := js_entities entity_names result
  htmlTpl0 ++ Nat.repr record_number ++ htmlTpl1 ++ Nat.repr record_number ++ htmlTpl2 ++
    Nat.repr result.length ++ htmlTpl3 ++
    Nat.repr ((js.filter (fun kv => !kv.2.isEmpty)).length) ++ htmlTpl4 ++
    (textContainerOpen ++ text) ++ htmlTpl5 ++
    dumps (Json.obj (js.map (fun kv => (kv.1.data, Json.arr kv.2)))) ++ htmlTpl6 ++
    dumps (Json.obj ((entity_colors entity_names).map
      (fun kv => (kv.1.data, Json.str kv.2.data)))) ++ htmlTpl7 ++
    dumps (Json.str text.data) ++ htmlTpl8

/-! ## Batch driver (`extract_data`, src/spark/app.py lines 730-838) -/

/-- One uploaded record's relevant fields. -/
structure RecordRow where
  title : CellValue
  abstract : CellValue

/-- The run's accumulated outputs: one entity-column row per record, the
visualization documents (filename, content), and the values reported to the
progress bar in order. -/
structure RunOutput where
  rows : List (List (String × String))
  visualizations : List (String × String)
  reports : List ℚ

/-- The entity columns written for one successfully extracted record
(src/spark/app.py lines 767-769 initialize every cell to `''`;
lines 810-816 overwrite the cell when the bucket is non-empty). -/
def result_cells (entity_names : List String) (exs : List Extraction) :
    List (String × String) :=
  entity_names.map (fun n =>
    (n, joinEntityValues ((alookup n (entity_extractions entity_names exs)).getD [])))

/-! Embedding of the record loop of `extract_data` (src/spark/app.py
lines 780-838).  The external `extract` call is abstracted by `oracle`:
`oracle i = none` means the call for record `i` raised (the `except` path),
`oracle i = some exs` means it returned `exs` as `result.extractions`.
The `encode of utf-8 / decode` step is the identity on valid
unicode text and is not modelled separately. -/

/-- The body of the record loop (src/spark/app.py lines 781-832): report
progress `(idx + 1) / total_records`, skip empty text, and on success
append the row cells and the visualization document `"{idx + 1}.html"`. -/
def extract_data_step (entity_names : List String) (total_records : Nat)
    (oracle : Nat → Option (List Extraction)) (acc : RunOutput) (p : Nat × RecordRow) :
    RunOutput :=
  let reports := acc.reports ++ [((p.1 + 1 : ℚ)) / (total_records : ℚ)]
  let text := prepare_extraction_text p.2.title p.2.abstract
  if text = "" then
    { acc with rows := acc.rows ++ [entity_names.map (fun n => (n, ""))], reports }
  else
    match oracle p.1 with
    | none =>
      { acc with rows := acc.rows ++ [entity_names.map (fun n => (n, ""))], reports }
    | some result =>
      { rows := acc.rows ++ [result_cells entity_names result],
        visualizations := acc.visualizations ++
          [(Nat.repr (p.1 + 1) ++ ".html",
            generate_interactive_html (p.1 + 1) text result entity_names)],
        reports }

def extract_data (records : List RecordRow) (oracle : Nat → Option (List Extraction))
    (entity_names : List String) : RunOutput :=
  let out := records.enum.foldl (extract_data_step entity_names records.length oracle)
    ⟨[], [], []⟩
  { out with reports := out.reports ++ [(1 : ℚ)] }

/-! ## Structure of the grouped visualization data -/

/-- The span dicts of class `c`, in discovery order. -/
def spansFor (exs : List Extraction) (c : String) : List Json :=
  (exs.filter (fun e => decide (e.extraction_class = c))).map spanJson

/-- The keys of `entity_groups` in insertion order. -/
def groupKeys (init : List String) (exs : List Extraction) : List String :=
  exs.foldl (fun ks e =>
    if e.extraction_class ∈ ks then ks else ks ++ [e.extraction_class]) init

theorem spansFor_singleton (e : Extraction) (c : String) :
    spansFor [e] c = if e.extraction_class = c then [spanJson e] else [] := by
  by_cases h : e.extraction_class = c <;> simp [spansFor, h]

theorem spansFor_cons (e : Extraction) (exs : List Extraction) (c : String) :
    spansFor (e :: exs) c = spansFor [e] c ++ spansFor exs c := by
  by_cases h : e.extraction_class = c <;> simp [spansFor, List.filter_cons, h]

theorem entity_groups_add_map_mem (keys : List String) (f : String → List Json)
    (e : Extraction) (hmem : e.extraction_class ∈ keys) :
    entity_groups_add (keys.map (fun c => (c, f c))) e =
      keys.map (fun c => (c, f c ++ spansFor [e] c)) := by
  unfold entity_groups_add
  have hany : (keys.map (fun c => (c, f c))).any (fun kv => kv.1 = e.extraction_class) = true := by
    rw [List.any_eq_true]
    exact ⟨(e.extraction_class, f e.extraction_class),
      List.mem_map.mpr ⟨e.extraction_class, hmem, rfl⟩, by simp⟩
  rw [if_pos hany, List.map_map]
  apply List.map_congr_left
  intro c _
  by_cases hc : c = e.extraction_class
  · simp only [Function.comp, if_pos hc, spansFor_singleton, if_pos hc.symm]
  · have hne : ¬ (e.extraction_class = c) := fun hh => hc hh.symm
    simp only [Function.comp, if_neg hc, spansFor_singleton, if_neg hne, List.append_nil]

theorem entity_groups_add_map_notMem (keys : List String) (f : String → List Json)
    (e : Extraction) (hmem : e.extraction_class ∉ keys) :
    entity_groups_add (keys.map (fun c => (c, f c))) e =
      (keys ++ [e.extraction_class]).map
        (fun c => (c, (if c = e.extraction_class then [] else f c) ++ spansFor [e] c)) := by
  unfold entity_groups_add
  have hany : (keys.map (fun c => (c, f c))).any (fun kv => kv.1 = e.extraction_class) = false := by
    rw [Bool.eq_false_iff]
    intro h
    rw [List.any_eq_true] at h
    obtain ⟨kv, hkv, hkv2⟩ := h
    obtain ⟨c, hc, rfl⟩ := List.mem_map.mp hkv
    exact hmem ((by simpa using hkv2) ▸ hc)
  rw [if_neg (by rw [hany]; exact Bool.false_ne_true), List.map_append, List.map_map,
    List.map_append]
  congr 1
  · apply List.map_congr_left
    intro c hc
    have hne : c ≠ e.extraction_class := fun hh => hmem (hh ▸ hc)
    have hne2 : ¬ (e.extraction_class = c) := fun hh => hne hh.symm
    simp only [Function.comp, if_neg hne, spansFor_singleton, if_neg hne2, List.append_nil]
  · simp [spansFor_singleton]

theorem entity_groups_foldl : ∀ (exs : List Extraction) (keys : List String)
    (f : String → List Json),
    exs.foldl entity_groups_add (keys.map (fun c => (c, f c))) =
      (groupKeys keys exs).map
        (fun c => (c, (if c ∈ keys then f c else []) ++ spansFor exs c)) := by
  intro exs
  induction exs with
  | nil =>
    intro keys f
    show keys.map _ = keys.map _
    apply List.map_congr_left
    intro c hc
    simp [if_pos hc, spansFor]
  | cons e exs ih =>
    intro keys f
    rw [List.foldl_cons]
    by_cases hm : e.extraction_class ∈ keys
    · rw [entity_groups_add_map_mem keys f e hm, ih keys (fun c => f c ++ spansFor [e] c)]
      have hk : groupKeys keys (e :: exs) = groupKeys keys exs := by
        show groupKeys (if e.extraction_class ∈ keys then keys
          else keys ++ [e.extraction_class]) exs = groupKeys keys exs
        rw [if_pos hm]
      rw [hk]
      apply List.map_congr_left
      intro c hc
      by_cases hck : c ∈ keys
      · rw [if_pos hck, if_pos hck, List.append_assoc]
        exact congrArg (fun l => (c, f c ++ l)) (spansFor_cons e exs c).symm
      · have hne : ¬ (e.extraction_class = c) := fun hh => hck (hh ▸ hm)
        rw [if_neg hck, if_neg hck, spansFor_cons, spansFor_singleton, if_neg hne,
          List.nil_append, List.nil_append]
    · rw [entity_groups_add_map_notMem keys f e hm,
        ih (keys ++ [e.extraction_class])
          (fun c => (if c = e.extraction_class then [] else f c) ++ spansFor [e] c)]
      have hk : groupKeys keys (e :: exs) = groupKeys (keys ++ [e.extraction_class]) exs := by
        show groupKeys (if e.extraction_class ∈ keys then keys
          else keys ++ [e.extraction_class]) exs = _
        rw [if_neg hm]
      rw [hk]
      apply List.map_congr_left
      intro c hc
      by_cases hck : c ∈ keys ++ [e.extraction_class]
      · rw [if_pos hck]
        rcases List.mem_append.mp hck with h1 | h1
        · have hne : c ≠ e.extraction_class := fun hh => hm (hh ▸ h1)
          have hne2 : ¬ (e.extraction_class = c) := fun hh => hne hh.symm
          rw [if_pos h1, if_neg hne, spansFor_singleton, if_neg hne2, List.append_nil,
            spansFor_cons, spansFor_singleton, if_neg hne2, List.nil_append]
        · have h1 : c = e.extraction_class := by simpa using h1
          subst h1
          rw [if_neg hm, if_pos rfl, spansFor_singleton, if_pos rfl, List.nil_append,
            spansFor_cons, spansFor_singleton, if_pos rfl, List.nil_append]
      · have hck2 : c ∉ keys := fun hh => hck (List.mem_append.mpr (Or.inl hh))
        have hne : ¬ (e.extraction_class = c) := fun hh =>
          hck (List.mem_append.mpr (Or.inr (by simp [hh])))
        rw [if_neg hck, if_neg hck2, spansFor_cons, spansFor_singleton, if_neg hne,
          List.nil_append, List.nil_append]

theorem entity_groups_spec (exs : List Extraction) :
    entity_groups exs = (groupKeys [] exs).map (fun c => (c, spansFor exs c)) := by
  have h := entity_groups_foldl exs [] (fun _ => [])
  simpa using h

theorem groupKeys_eq (exs : List Extraction) :
    groupKeys [] exs = pyDedupKeys (exs.map (fun e => e.extraction_class)) := by
  rw [groupKeys, pyDedupKeys, List.foldl_map]

theorem foldl_pyDictUpdate {V : Type} (names : List String) (v : String → V) :
    ∀ keys : List String,
    names.foldl (fun d n => pyDictUpdate d n (v n)) (keys.map (fun c => (c, v c))) =
      (names.foldl (fun ks n => if n ∈ ks then ks else ks ++ [n]) keys).map
        (fun c => (c, v c)) := by
  induction names with
  | nil => intro keys; rfl
  | cons n names ih =>
    intro keys
    rw [List.foldl_cons, List.foldl_cons]
    by_cases hm : n ∈ keys
    · have hstep : pyDictUpdate (keys.map (fun c => (c, v c))) n (v n) =
          keys.map (fun c => (c, v c)) := by
        unfold pyDictUpdate
        rw [if_pos]
        · rw [List.map_map]
          apply List.map_congr_left
          intro c _
          by_cases hc : c = n
          · simp [Function.comp, hc]
          · simp [Function.comp, hc]
        · rw [List.any_eq_true]
          exact ⟨(n, v n), List.mem_map.mpr ⟨n, hm, rfl⟩, by simp⟩
      rw [hstep, if_pos hm, ih keys]
    · have hstep : pyDictUpdate (keys.map (fun c => (c, v c))) n (v n) =
          (keys ++ [n]).map (fun c => (c, v c)) := by
        unfold pyDictUpdate
        rw [if_neg, List.map_append]
        · rfl
        · intro h
          rw [List.any_eq_true] at h
          obtain ⟨kv, hkv, hkv2⟩ := h
          obtain ⟨c, hc, rfl⟩ := List.mem_map.mp hkv
          exact hm ((by simpa using hkv2) ▸ hc)
      rw [hstep, if_neg hm, ih (keys ++ [n])]

theorem js_entities_spec (names : List String) (exs : List Extraction) :
    js_entities names exs =
      (pyDedupKeys names).map
        (fun n => (n, (alookup n (entity_groups exs)).getD [])) := by
  have h := foldl_pyDictUpdate names (fun n => (alookup n (entity_groups exs)).getD []) []
  simpa [js_entities, pyDedupKeys] using h

/-! ## Structure of the batch driver's fold -/

/-- The entity columns produced for one record. -/
def rowOf (entity_names : List String) (oracle : Nat → Option (List Extraction))
    (p : Nat × RecordRow) : List (String × String) :=
  if prepare_extraction_text p.2.title p.2.abstract = "" then
    entity_names.map (fun n => (n, ""))
  else
    match oracle p.1 with
    | none => entity_names.map (fun n => (n, ""))
    | some result => result_cells entity_names result

/-- The visualization document produced for one record, if any. -/
def vizOf (entity_names : List String) (oracle : Nat → Option (List Extraction))
    (p : Nat × RecordRow) : Option (String × String) :=
  if prepare_extraction_text p.2.title p.2.abstract = "" then none
  else
    match oracle p.1 with
    | none => none
    | some result =>
      some (Nat.repr (p.1 + 1) ++ ".html",
        generate_interactive_html (p.1 + 1)
          (prepare_extraction_text p.2.title p.2.abstract) result entity_names)

theorem extract_data_foldl (entity_names : List String) (N : Nat)
    (oracle : Nat → Option (List Extraction)) :
    ∀ (l : List (Nat × RecordRow)) (acc : RunOutput),
    l.foldl (extract_data_step entity_names N oracle) acc =
      { rows := acc.rows ++ l.map (rowOf entity_names oracle),
        visualizations := acc.visualizations ++ l.filterMap (vizOf entity_names oracle),
        reports := acc.reports ++ l.map (fun p => ((p.1 + 1 : ℚ)) / (N : ℚ)) } := by
  intro l
  induction l with
  | nil => intro acc; simp
  | cons p l ih =>
    intro acc
    rw [List.foldl_cons, ih]
    by_cases ht : prepare_extraction_text p.2.title p.2.abstract = ""
    · simp [extract_data_step, ht, rowOf, vizOf]
    · cases ho : oracle p.1 with
      | none => simp [extract_data_step, ht, ho, rowOf, vizOf]
      | some result => simp [extract_data_step, ht, ho, rowOf, vizOf]

theorem extract_data_spec (records : List RecordRow)
    (oracle : Nat → Option (List Extraction)) (entity_names : List String) :
    extract_data records oracle entity_names =
      { rows := records.enum.map (rowOf entity_names oracle),
        visualizations := records.enum.filterMap (vizOf entity_names oracle),
        reports := records.enum.map (fun p => ((p.1 + 1 : ℚ)) / (records.length : ℚ))
          ++ [(1 : ℚ)] } := by
  rw [extract_data, extract_data_foldl]
  rfl

theorem getElem?_enum {α : Type} (l : List α) (i : Nat) :
    l.enum[i]? = l[i]?.map (fun a => (i, a)) := by
  show (l.enumFrom 0)[i]? = _
  rw [List.getElem?_enumFrom]
  simp

theorem length_filterMap_eq_countP {α β : Type} (f : α → Option β) (l : List α) :
    (l.filterMap f).length = l.countP (fun a => (f a).isSome) := by
  induction l with
  | nil => rfl
  | cons a l ih =>
    rw [List.filterMap_cons, List.countP_cons]
    cases h : f a <;> simp [h, ih]

/-! ## Supporting lemmas for the claim theorems -/

theorem countP_add_countP_not {α : Type} (l : List α) (p : α → Bool) :
    l.countP p + l.countP (fun a => !(p a)) = l.length := by
  induction l with
  | nil => rfl
  | cons a l ih =>
    rw [List.countP_cons, List.countP_cons, List.length_cons]
    cases h : p a
    · rw [if_neg (show ¬ (false = true) by decide), if_pos (show (!false) = true from rfl)]
      omega
    · rw [if_pos rfl, if_neg (show ¬ ((!true) = true) by decide)]
      omega

theorem snd_mem_of_mem_enumFrom {α : Type} :
    ∀ (l : List α) (n : Nat) (p : Nat × α), p ∈ l.enumFrom n → p.2 ∈ l := by
  intro l
  induction l with
  | nil => intro n p h; cases h
  | cons a l ih =>
    intro n p h
    rw [List.enumFrom_cons] at h
    rcases List.mem_cons.mp h with h1 | h1
    · rw [h1]
      exact List.mem_cons_self a l
    · exact List.mem_cons_of_mem a (ih (n + 1) p h1)

/-- Membership in a bucket only depends on the (class, text) pairs. -/
theorem mem_extractionsFor (exs : List Extraction) (n s : String) :
    s ∈ extractionsFor exs n ↔
      (n, s) ∈ exs.map (fun e => (e.extraction_class, e.extraction_text)) := by
  simp only [extractionsFor, List.mem_map, List.mem_filter, decide_eq_true_eq]
  constructor
  · rintro ⟨e, ⟨he, hc⟩, rfl⟩
    exact ⟨e, he, by rw [hc]⟩
  · rintro ⟨e, he, hp⟩
    have hc : e.extraction_class = n := congrArg Prod.fst hp
    have ht : e.extraction_text = s := congrArg Prod.snd hp
    exact ⟨e, ⟨he, hc⟩, ht⟩

theorem joinEntityValues_eq_of_mem_iff {l1 l2 : List String}
    (h : ∀ s, s ∈ l1 ↔ s ∈ l2) : joinEntityValues l1 = joinEntityValues l2 := by
  by_cases h1 : l1 = []
  · subst h1
    have h2 : l2 = [] := List.eq_nil_iff_forall_not_mem.mpr
      (fun a ha => (List.not_mem_nil a) ((h a).mpr ha))
    rw [h2]
  · have h2 : l2 ≠ [] := fun hh => h1 (List.eq_nil_iff_forall_not_mem.mpr
      (fun a ha => (List.not_mem_nil a) (hh ▸ (h a).mp ha)))
    rw [joinEntityValues, joinEntityValues, if_neg h1, if_neg h2,
      pySortedSet_eq_of_mem_iff h]

theorem splitNl_ne_nil : ∀ l : List Char, splitNl l ≠ [] := by
  intro l
  induction l with
  | nil => simp [splitNl]
  | cons c rest ih =>
    rw [splitNl]
    by_cases h : c = '\n'
    · simp [h]
    · simp only [h, if_false]
      cases hr : splitNl rest <;> simp

theorem splitNl_no_nl_append (xs ys : List Char) (h : '\n' ∉ xs) :
    splitNl (xs ++ ys) = (xs ++ (splitNl ys).headI) :: (splitNl ys).tail := by
  induction xs with
  | nil =>
    rw [List.nil_append]
    cases hy : splitNl ys with
    | nil => exact absurd hy (splitNl_ne_nil ys)
    | cons a as => simp [List.headI]
  | cons c xs ih =>
    have hc : ¬ (c = '\n') := fun hh => h (hh ▸ List.mem_cons_self c xs)
    have h2 : '\n' ∉ xs := fun hh => h (List.mem_cons_of_mem c hh)
    rw [List.cons_append, splitNl, ih h2]
    simp only [hc, if_false, List.cons_append]

theorem dropWhile_append_pos (xs z : List Char) (h : xs.dropWhile isIndentChar ≠ []) :
    (xs ++ z).dropWhile isIndentChar = xs.dropWhile isIndentChar ++ z := by
  induction xs with
  | nil => exact absurd rfl h
  | cons c xs ih =>
    by_cases hc : isIndentChar c = true
    · rw [List.cons_append, List.dropWhile_cons_of_pos hc, List.dropWhile_cons_of_pos hc]
      exact ih (by rwa [List.dropWhile_cons_of_pos hc] at h)
    · rw [List.cons_append, List.dropWhile_cons_of_neg hc, List.dropWhile_cons_of_neg hc]
      rfl

theorem takeWhile_append_pos (xs z : List Char) (h : xs.dropWhile isIndentChar ≠ []) :
    (xs ++ z).takeWhile isIndentChar = xs.takeWhile isIndentChar := by
  induction xs with
  | nil => exact absurd rfl h
  | cons c xs ih =>
    by_cases hc : isIndentChar c = true
    · rw [List.cons_append, List.takeWhile_cons_of_pos hc, List.takeWhile_cons_of_pos hc,
        ih (by rwa [List.dropWhile_cons_of_pos hc] at h)]
    · rw [List.cons_append, List.takeWhile_cons_of_neg hc, List.takeWhile_cons_of_neg hc]

theorem string_append_assoc (a b c : String) : (a ++ b) ++ c = a ++ (b ++ c) := by
  apply String.ext
  rw [String.data_append, String.data_append, String.data_append, String.data_append,
    List.append_assoc]

/-- The per-entity loop accepts every list of well-formed entity dicts. -/
theorem validate_entities_all_valid : ∀ entities : List Json,
    (∀ ent ∈ entities, ∃ fields, ent = Json.obj fields ∧
      (jlookup "name" fields).isSome = true ∧
      ∃ l, jlookup "examples" fields = some (Json.arr l)) →
    validate_entities entities = (true, "") := by
  intro entities
  induction entities with
  | nil => intro _; rfl
  | cons e rest ih =>
    intro h
    obtain ⟨fields, he, hname, l, hex⟩ := h e (List.mem_cons_self e rest)
    subst he
    obtain ⟨nv, hnv⟩ := Option.isSome_iff_exists.mp hname
    rw [validate_entities, hnv, hex]
    simp only [Option.isSome_some, Option.isNone_some, Bool.false_eq_true, if_false]
    exact ih (fun ent hent => h ent (List.mem_cons_of_mem _ hent))

/-! ## The claims -/

/-- C1: for every span list and every requested name list, the aggregate
step returns one column per requested entity name (deduplicated, in
first-occurrence order, present even with zero matches); spans whose class
is not among the requested names are silently dropped; a name with a
non-empty bucket maps to its texts deduplicated by string equality, sorted
ascending by code-point order and joined with "; ", and a name with an
empty bucket maps to "". -/
theorem C1_aggregate_step (names : List String) (exs : List Extraction) :
    ((aggregateSpans names exs).map Prod.fst = pyDedupKeys names) ∧
    (∀ n, (alookup n (aggregateSpans names exs)).isSome = true ↔ n ∈ names) ∧
    (aggregateSpans names (exs.filter (fun e => decide (e.extraction_class ∈ names))) =
      aggregateSpans names exs) ∧
    (∀ n ∈ names, alookup n (aggregateSpans names exs) =
      some (if extractionsFor exs n = [] then ""
            else pyJoin "; " (pySortedSet (extractionsFor exs n)))) ∧
    (∀ l : List String, (pySortedSet l).Sorted (· ≤ ·) ∧ (pySortedSet l).Nodup ∧
      ∀ s, s ∈ pySortedSet l ↔ s ∈ l) := by
  refine ⟨?_, ?_, ?_, ?_, ?_⟩
  · rw [aggregateSpans_spec, List.map_map]
    have hid : (Prod.fst ∘ fun n : String =>
        (n, joinEntityValues (extractionsFor exs n))) = id := rfl
    rw [hid, List.map_id]
  · intro n
    rw [alookup_aggregateSpans]
    by_cases h : n ∈ names <;> simp [h]
  · rw [aggregateSpans_spec, aggregateSpans_spec]
    apply List.map_congr_left
    intro n hn
    have hn2 : n ∈ names := (mem_pyDedupKeys names n).mp hn
    have hfor : extractionsFor (exs.filter (fun e => decide (e.extraction_class ∈ names))) n =
        extractionsFor exs n := by
      rw [extractionsFor, extractionsFor, List.filter_filter]
      congr 1
      apply List.filter_congr
      intro e _
      by_cases hc : e.extraction_class = n
      · simp [hc, hn2]
      · simp [hc]
    rw [hfor]
  · intro n hn
    rw [alookup_aggregateSpans, if_pos hn]
    rfl
  · intro l
    refine ⟨?_, pySortedSet_nodup l, pySortedSet_mem l⟩
    exact List.Pairwise.imp (fun h => (pyLe_iff _ _).mp h) (pySortedSet_sorted l)

/-- C2 (code bug): a present null `title` cell is stringified by
`str(...)` to the non-empty, truthy string "None", so the title branch is
taken and the result is "Title: None\n\nAbstract: ..." — not
"Abstract: ..." as the spec (and the repo's own tests) require; only an
absent title yields "Abstract: ...".  Symmetrically for a null abstract. -/
theorem C2_null_cell :
    prepare_extraction_text CellValue.null (CellValue.text "Test Abstract") =
      "Title: None\n\nAbstract: Test Abstract" ∧
    prepare_extraction_text CellValue.null (CellValue.text "Test Abstract") ≠
      "Abstract: Test Abstract" ∧
    prepare_extraction_text CellValue.absent (CellValue.text "Test Abstract") =
      "Abstract: Test Abstract" ∧
    prepare_extraction_text (CellValue.text "Test Title") CellValue.null =
      "Title: Test Title\n\nAbstract: None" := by
  refine ⟨rfl, by decide, rfl, rfl⟩

/-- A concrete schema in the shape the app saves (context plus a non-empty
entity list whose entries have a name and an examples list). -/
def sampleSchema : Json :=
  Json.obj
    [(("context").data, Json.str ("Extract disease mentions from clinical abstracts").data),
     (("entities").data, Json.arr
       [Json.obj [(("name").data, Json.str ("Disease").data),
                  (("examples").data, Json.arr [Json.str ("diabetes").data,
                     Json.str ("hypertension").data])]])]

/-- C4: every schema accepted by `validate_schema` round-trips exactly
through `save_schema` / `load_schema` (in fact every `Json` value does). -/
theorem C4_schema_roundtrip (schema : Json)
    (_h : (validate_schema schema).1 = true) :
    load_schema (save_schema schema) = some schema := loads_dumps schema

/-- C4 witness: the round trip at a concrete validated schema. -/
theorem C4_schema_roundtrip_witness :
    (validate_schema sampleSchema).1 = true ∧
    load_schema (save_schema sampleSchema) = some sampleSchema :=
  ⟨rfl, C4_schema_roundtrip sampleSchema rfl⟩

/-- C5: each failure path of `validate_schema` produces exactly the coded
message — missing context; `entities` absent or not a list; empty entity
list; an entity without a name field, or without a list-valued examples
field — and every schema with a context key, a non-empty entities list and
well-formed entities is reported valid. -/
theorem C5_validate_errors (kvs : List (List Char × Json)) :
    (jlookup "context" kvs = none →
      validate_schema (Json.obj kvs) = (false, "Schema must contain 'context' field")) ∧
    ((jlookup "context" kvs).isSome = true → jlookup "entities" kvs = none →
      validate_schema (Json.obj kvs) = (false, "Schema must contain 'entities' list")) ∧
    ((jlookup "context" kvs).isSome = true →
      (∀ v, jlookup "entities" kvs = some v → (∀ l, v ≠ Json.arr l) →
        validate_schema (Json.obj kvs) = (false, "Schema must contain 'entities' list"))) ∧
    ((jlookup "context" kvs).isSome = true →
      jlookup "entities" kvs = some (Json.arr []) →
      validate_schema (Json.obj kvs) = (false, "Schema must contain at least one entity")) ∧
    (∀ fields rest, (jlookup "name" fields).isNone = true →
      validate_entities (Json.obj fields :: rest) =
        (false, "Each entity must have a 'name' field")) ∧
    (∀ fields rest, (jlookup "name" fields).isSome = true →
      (∀ l, jlookup "examples" fields ≠ some (Json.arr l)) →
      validate_entities (Json.obj fields :: rest) =
        (false, "Each entity must have an 'examples' list")) ∧
    (∀ entities, (jlookup "context" kvs).isSome = true →
      jlookup "entities" kvs = some (Json.arr entities) → entities ≠ [] →
      (∀ ent ∈ entities, ∃ fields, ent = Json.obj fields ∧
        (jlookup "name" fields).isSome = true ∧
        ∃ l, jlookup "examples" fields = some (Json.arr l)) →
      validate_schema (Json.obj kvs) = (true, "")) := by
  refine ⟨?_, ?_, ?_, ?_, ?_, ?_, ?_⟩
  · intro h
    rw [validate_schema, h]
    rfl
  · intro h1 h2
    obtain ⟨c, hc⟩ := Option.isSome_iff_exists.mp h1
    rw [validate_schema, hc, h2]
    rfl
  · intro h1 v hv hnl
    obtain ⟨c, hc⟩ := Option.isSome_iff_exists.mp h1
    rw [validate_schema, hc, hv]
    simp only [Option.isNone_some, Bool.false_eq_true, if_false]
    cases v with
    | arr l => exact absurd rfl (hnl l)
    | null => rfl
    | bool b => rfl
    | num i => rfl
    | str s => rfl
    | obj ms => rfl
  · intro h1 h2
    obtain ⟨c, hc⟩ := Option.isSome_iff_exists.mp h1
    rw [validate_schema, hc, h2]
    rfl
  · intro fields rest h
    rw [validate_entities, h]
    rfl
  · intro fields rest h1 h2
    obtain ⟨nv, hnv⟩ := Option.isSome_iff_exists.mp h1
    cases hx : jlookup "examples" fields with
    | none => rw [validate_entities, hnv, hx]; rfl
    | some v =>
      cases v with
      | arr l => exact absurd hx (h2 l)
      | null => rw [validate_entities, hnv, hx]; rfl
      | bool b => rw [validate_entities, hnv, hx]; rfl
      | num i => rw [validate_entities, hnv, hx]; rfl
      | str s => rw [validate_entities, hnv, hx]; rfl
      | obj ms => rw [validate_entities, hnv, hx]; rfl
  · intro entities h1 h2 h3 hall
    obtain ⟨c, hc⟩ := Option.isSome_iff_exists.mp h1
    rw [validate_schema, hc, h2]
    simp only [Option.isNone_some, Bool.false_eq_true, if_false]
    rw [if_neg (fun hh => h3 (List.length_eq_zero.mp hh))]
    exact validate_entities_all_valid entities hall

/-- C5 witness: the spec's five test vectors, evaluated. -/
theorem C5_validate_errors_witness :
    validate_schema (Json.obj []) = (false, "Schema must contain 'context' field") ∧
    validate_schema (Json.obj [(("context").data, Json.str ("x").data)]) =
      (false, "Schema must contain 'entities' list") ∧
    validate_schema (Json.obj [(("context").data, Json.str ("x").data),
      (("entities").data, Json.arr [])]) =
      (false, "Schema must contain at least one entity") ∧
    validate_schema (Json.obj [(("context").data, Json.str ("x").data),
      (("entities").data, Json.arr [Json.obj [(("name").data, Json.str ("E").data)]])]) =
      (false, "Each entity must have an 'examples' list") ∧
    validate_schema sampleSchema = (true, "") :=
  ⟨rfl, rfl, rfl, rfl, rfl⟩

/-- C7: the aggregate output is a function of the set of (class, text)
pairs alone — duplication and discovery order do not matter — and the
spec's example yields "Diabetes; Hypertension". -/
theorem C7_order_independence (exs1 exs2 : List Extraction) (names : List String)
    (h1 : ∀ p ∈ exs1.map (fun e => (e.extraction_class, e.extraction_text)),
      p ∈ exs2.map (fun e => (e.extraction_class, e.extraction_text)))
    (h2 : ∀ p ∈ exs2.map (fun e => (e.extraction_class, e.extraction_text)),
      p ∈ exs1.map (fun e => (e.extraction_class, e.extraction_text))) :
    aggregateSpans names exs1 = aggregateSpans names exs2 ∧
    alookup "Disease" (aggregateSpans ["Disease"]
      [⟨"Disease", "Diabetes", 0, 8⟩, ⟨"Disease", "Hypertension", 10, 22⟩,
       ⟨"Disease", "Diabetes", 30, 38⟩]) = some "Diabetes; Hypertension" := by
  constructor
  · rw [aggregateSpans_spec, aggregateSpans_spec]
    apply List.map_congr_left
    intro n _
    have hj : joinEntityValues (extractionsFor exs1 n) =
        joinEntityValues (extractionsFor exs2 n) := by
      apply joinEntityValues_eq_of_mem_iff
      intro s
      rw [mem_extractionsFor, mem_extractionsFor]
      exact ⟨fun hh => h1 _ hh, fun hh => h2 _ hh⟩
    rw [hj]
  · decide

/-- C7 witness: two concrete span lists with the same (class, text) pairs
in different orders and multiplicities aggregate identically. -/
theorem C7_order_independence_witness :
    aggregateSpans ["Disease"]
      [⟨"Disease", "Diabetes", 0, 8⟩, ⟨"Disease", "Hypertension", 10, 22⟩,
       ⟨"Disease", "Diabetes", 30, 38⟩] =
    aggregateSpans ["Disease"]
      [⟨"Disease", "Hypertension", 10, 22⟩, ⟨"Disease", "Diabetes", 30, 38⟩] :=
  (C7_order_independence _ _ ["Disease"] (by decide) (by decide)).1

/-- Three records with non-empty title and abstract. -/
def sampleRecords : List RecordRow :=
  [⟨CellValue.text "T1", CellValue.text "A1"⟩,
   ⟨CellValue.text "T2", CellValue.text "A2"⟩,
   ⟨CellValue.text "T3", CellValue.text "A3"⟩]

/-- An extraction oracle that fails (raises) on the second record only. -/
def sampleOracle : Nat → Option (List Extraction) :=
  fun i => if i = 1 then none else some [⟨"Disease", "Diabetes", 0, 8⟩]

/-- C3: on a batch of N records (each with extractable text) of which M
fail extraction, the driver emits exactly N result rows, blank entity
columns for each failing record, exactly N − M visualization documents,
and a final progress report of 1.0; no failure aborts the run. -/
theorem C3_batch_driver (records : List RecordRow)
    (oracle : Nat → Option (List Extraction)) (names : List String)
    (htext : ∀ r ∈ records, prepare_extraction_text r.title r.abstract ≠ "") :
    (extract_data records oracle names).rows.length = records.length ∧
    (∀ i, i < records.length → oracle i = none →
      (extract_data records oracle names).rows[i]? =
        some (names.map (fun n => (n, "")))) ∧
    (extract_data records oracle names).visualizations.length =
      records.length -
        ((List.range records.length).filter (fun i => (oracle i).isNone)).length ∧
    (extract_data records oracle names).reports.getLast? = some 1 := by
  rw [extract_data_spec]
  refine ⟨?_, ?_, ?_, ?_⟩
  · show (records.enum.map (rowOf names oracle)).length = records.length
    rw [List.length_map, List.enum_length]
  · intro i hi ho
    show (records.enum.map (rowOf names oracle))[i]? =
      some (names.map (fun n => (n, "")))
    rw [List.getElem?_map, getElem?_enum, List.getElem?_eq_getElem hi]
    have hne := htext _ (List.getElem_mem hi)
    simp [rowOf, hne, ho]
  · show (records.enum.filterMap (vizOf names oracle)).length =
      records.length -
        ((List.range records.length).filter (fun i => (oracle i).isNone)).length
    rw [length_filterMap_eq_countP]
    have hc : records.enum.countP (fun p => (vizOf names oracle p).isSome) =
        records.enum.countP (fun p => (oracle p.1).isSome) := by
      apply List.countP_congr
      intro p hp
      have hne := htext _ (snd_mem_of_mem_enumFrom records 0 p hp)
      cases ho : oracle p.1 <;> simp [vizOf, hne, ho]
    have hmap : records.enum.countP (fun p => (oracle p.1).isSome) =
        (List.range records.length).countP (fun i => (oracle i).isSome) := by
      rw [← List.enum_map_fst records, List.countP_map]
      rfl
    rw [hc, hmap, ← List.countP_eq_length_filter]
    have hsum := countP_add_countP_not (List.range records.length)
      (fun i => (oracle i).isSome)
    rw [List.length_range] at hsum
    have hnn : (List.range records.length).countP (fun a => !(oracle a).isSome) =
        (List.range records.length).countP (fun i => (oracle i).isNone) := by
      apply List.countP_congr
      intro i _
      cases oracle i <;> rfl
    omega
  · show (records.enum.map (fun p => ((p.1 + 1 : ℚ)) / (records.length : ℚ))
      ++ [(1 : ℚ)]).getLast? = some 1
    exact List.getLast?_concat _

/-- C3 witness: three records, the second failing: 3 rows, a blank second
row, 2 visualizations, final progress 1. -/
theorem C3_batch_driver_witness :
    (extract_data sampleRecords sampleOracle ["Disease"]).rows.length = 3 ∧
    (extract_data sampleRecords sampleOracle ["Disease"]).rows[1]? =
      some [("Disease", "")] ∧
    (extract_data sampleRecords sampleOracle ["Disease"]).visualizations.length = 2 ∧
    (extract_data sampleRecords sampleOracle ["Disease"]).reports.getLast? = some 1 := by
  have hmain := C3_batch_driver sampleRecords sampleOracle ["Disease"] (by decide)
  refine ⟨hmain.1, ?_, ?_, hmain.2.2.2⟩
  · exact hmain.2.1 1 (by decide) rfl
  · rw [hmain.2.2.1]
    rfl

/-- C6 (code bug): the record text is interpolated raw into the
text-container div of the generated page — the full expansion at a
markup-bearing text exhibits `textContainerOpen ++ text` unescaped — while
the page's `escapeHtml` (which would produce the escaped form, a different
string) is applied only to highlighted span matches by the script. -/
theorem C6_raw_interpolation :
    generate_interactive_html 1 "<b>bold</b>" [] ["Disease"] =
      htmlTpl0 ++ "1" ++ htmlTpl1 ++ "1" ++ htmlTpl2 ++ "0" ++ htmlTpl3 ++ "0" ++ htmlTpl4 ++
        (textContainerOpen ++ "<b>bold</b>") ++ htmlTpl5 ++
        "\x7b\"Disease\": []\x7d" ++ htmlTpl6 ++
        "\x7b\"Disease\": \"#FFB6C1\"\x7d" ++ htmlTpl7 ++
        "\"<b>bold</b>\"" ++ htmlTpl8 ∧
    escapeHtml "<b>bold</b>" = "&lt;b&gt;bold&lt;/b&gt;" ∧
    ("<b>bold</b>" : String) ≠ escapeHtml "<b>bold</b>" := by
  refine ⟨rfl, rfl, by decide⟩

/-- C8 counterexample: there is no offset validation.  For the record text
"abc" (length 3) the span ("Disease", "xyz", 50, 60) is out of bounds,
yet its dict is kept in the highlighting data and embedded in the page. -/
theorem C8_offsets_counterexample :
    ("abc" : String).length = 3 ∧
    js_entities ["Disease"] [⟨"Disease", "xyz", 50, 60⟩] =
      [("Disease", [spanJson ⟨"Disease", "xyz", 50, 60⟩])] ∧
    (∃ pre post,
      generate_interactive_html 1 "abc" [⟨"Disease", "xyz", 50, 60⟩] ["Disease"] =
        pre ++ dumps (Json.obj [(("Disease").data,
          Json.arr [spanJson ⟨"Disease", "xyz", 50, 60⟩])]) ++ post) := by
  refine ⟨rfl, rfl,
    ⟨htmlTpl0 ++ "1" ++ htmlTpl1 ++ "1" ++ htmlTpl2 ++ "1" ++ htmlTpl3 ++ "1" ++ htmlTpl4 ++
      (textContainerOpen ++ "abc") ++ htmlTpl5,
     htmlTpl6 ++ dumps (Json.obj [(("Disease").data, Json.str ("#FFB6C1").data)]) ++
       htmlTpl7 ++ dumps (Json.str ("abc").data) ++ htmlTpl8, ?_⟩⟩
  show htmlTpl0 ++ "1" ++ htmlTpl1 ++ "1" ++ htmlTpl2 ++ "1" ++ htmlTpl3 ++ "1" ++ htmlTpl4 ++
      (textContainerOpen ++ "abc") ++ htmlTpl5 ++
      dumps (Json.obj [(("Disease").data,
        Json.arr [spanJson ⟨"Disease", "xyz", 50, 60⟩])]) ++
      htmlTpl6 ++ dumps (Json.obj [(("Disease").data, Json.str ("#FFB6C1").data)]) ++
      htmlTpl7 ++ dumps (Json.str ("abc").data) ++ htmlTpl8 = _
  simp only [string_append_assoc]

/-- C8 (amended): what the code actually does with ill-offset spans: the
generator never inspects offsets (and never crashes on them) — every
returned span, out of bounds or not, is kept in its class's highlighting
bucket — while the aggregate column output is invariant under changing
offsets, since it uses only the span texts. -/
theorem C8_offsets_amended (exs : List Extraction) (names : List String) :
    (∀ e ∈ exs, spanJson e ∈ (alookup e.extraction_class (entity_groups exs)).getD []) ∧
    aggregateSpans names (exs.map (fun e =>
        { e with start_pos := 0, end_pos := 0 })) = aggregateSpans names exs := by
  constructor
  · intro e he
    rw [entity_groups_spec, alookup_map_key]
    have hks : e.extraction_class ∈ groupKeys [] exs := by
      rw [groupKeys_eq, mem_pyDedupKeys]
      exact List.mem_map.mpr ⟨e, he, rfl⟩
    rw [if_pos hks]
    show spanJson e ∈ spansFor exs e.extraction_class
    rw [spansFor]
    exact List.mem_map.mpr ⟨e, List.mem_filter.mpr ⟨he, by simp⟩, rfl⟩
  · rw [aggregateSpans_spec, aggregateSpans_spec]
    apply List.map_congr_left
    intro n _
    have hfor : extractionsFor (exs.map (fun e =>
        { e with start_pos := 0, end_pos := 0 })) n = extractionsFor exs n := by
      rw [extractionsFor, extractionsFor, List.filter_map, List.map_map]
      rfl
    rw [hfor]

/-- The dedented prompt template: for an interpolated entity list holding
no newline, the three indented sentences lose their 12-space margin and
stay joined by single newlines. -/
theorem textwrap_dedent_template (el : String) (h : '\n' ∉ el.data) :
    textwrap_dedent (prompt_template el) =
      "Extract " ++ el ++
        " in order of appearance.\nUse exact text for extractions. Do not paraphrase or overlap entities.\nProvide meaningful attributes for each entity to add context." := by
  apply String.ext
  have hnlA : '\n' ∉ ("            Extract ").data ++ el.data := by
    intro hmem
    rcases List.mem_append.mp hmem with h1 | h1
    · exact absurd h1 (by decide)
    · exact h h1
  have hsplit : splitNl (prompt_template el).data =
      (("            Extract ").data ++ el.data ++ (" in order of appearance.").data) ::
        [("            Use exact text for extractions. Do not paraphrase or overlap entities.").data,
         ("            Provide meaningful attributes for each entity to add context.").data] := by
    have hd : (prompt_template el).data =
        (("            Extract ").data ++ el.data) ++
          (" in order of appearance.\n            Use exact text for extractions. Do not paraphrase or overlap entities.\n            Provide meaningful attributes for each entity to add context.").data := by
      rw [prompt_template, String.data_append, String.data_append]
    rw [hd, splitNl_no_nl_append _ _ hnlA]
    rfl
  have hdc : (("            Extract ").data ++ el.data ++
      (" in order of appearance.").data).dropWhile isIndentChar =
      ("Extract ").data ++ (el.data ++ (" in order of appearance.").data) := by
    rw [List.append_assoc,
      dropWhile_append_pos ("            Extract ").data _ (by decide)]
    rfl
  have hc1 : hasContent (("            Extract ").data ++ el.data ++
      (" in order of appearance.").data) = true := by
    rw [hasContent, hdc]
    rfl
  have hws1 : wsPrefix (("            Extract ").data ++ el.data ++
      (" in order of appearance.").data) = ("            ").data := by
    rw [wsPrefix, List.append_assoc,
      takeWhile_append_pos ("            Extract ").data _ (by decide)]
    rfl
  have hlines : ((splitNl (prompt_template el).data).map
      (fun l => if hasContent l then l else [])) =
      (("            Extract ").data ++ el.data ++ (" in order of appearance.").data) ::
        [("            Use exact text for extractions. Do not paraphrase or overlap entities.").data,
         ("            Provide meaningful attributes for each entity to add context.").data] := by
    rw [hsplit, List.map_cons, List.map_cons, List.map_cons, List.map_nil, if_pos hc1,
      if_pos (show hasContent ("            Use exact text for extractions. Do not paraphrase or overlap entities.").data = true from rfl),
      if_pos (show hasContent ("            Provide meaningful attributes for each entity to add context.").data = true from rfl)]
  have hmargin : dedentMargin
      ((("            Extract ").data ++ el.data ++ (" in order of appearance.").data) ::
        [("            Use exact text for extractions. Do not paraphrase or overlap entities.").data,
         ("            Provide meaningful attributes for each entity to add context.").data]) =
      ("            ").data := by
    rw [dedentMargin, List.filter_cons_of_pos hc1,
      List.filter_cons_of_pos (show hasContent ("            Use exact text for extractions. Do not paraphrase or overlap entities.").data = true from rfl),
      List.filter_cons_of_pos (show hasContent ("            Provide meaningful attributes for each entity to add context.").data = true from rfl),
      List.filter_nil]
    show List.foldl _
      (wsPrefix (("            Extract ").data ++ el.data ++ (" in order of appearance.").data))
      [("            Use exact text for extractions. Do not paraphrase or overlap entities.").data,
       ("            Provide meaningful attributes for each entity to add context.").data] =
      ("            ").data
    rw [List.foldl_cons, List.foldl_cons, List.foldl_nil, hws1]
    rfl
  have hstrip1 : stripMargin ("            ").data
      (("            Extract ").data ++ el.data ++ (" in order of appearance.").data) =
      ("Extract ").data ++ (el.data ++ (" in order of appearance.").data) := by
    have hshape : ("            Extract ").data ++ el.data ++ (" in order of appearance.").data =
        ("            ").data ++
          (("Extract ").data ++ (el.data ++ (" in order of appearance.").data)) := by
      rw [show ("            Extract ").data = ("            ").data ++ ("Extract ").data
        from rfl]
      simp [List.append_assoc]
    have hpre : ("            ").data.isPrefixOf (("            ").data ++
        (("Extract ").data ++ (el.data ++ (" in order of appearance.").data))) = true :=
      (List.isPrefixOf_iff_prefix).mpr (List.prefix_append _ _)
    rw [stripMargin, hshape, if_pos hpre, List.drop_left]
  simp only [textwrap_dedent]
  rw [hlines, hmargin, List.map_cons, List.map_cons, List.map_cons, List.map_nil,
    hstrip1,
    show stripMargin ("            ").data ("            Use exact text for extractions. Do not paraphrase or overlap entities.").data = ("Use exact text for extractions. Do not paraphrase or overlap entities.").data from rfl,
    show stripMargin ("            ").data ("            Provide meaningful attributes for each entity to add context.").data = ("Provide meaningful attributes for each entity to add context.").data from rfl]
  show ("Extract ").data ++ (el.data ++ (" in order of appearance.").data) ++
      '\n' :: (("Use exact text for extractions. Do not paraphrase or overlap entities.").data ++
        '\n' :: ("Provide meaningful attributes for each entity to add context.").data) =
    ("Extract " ++ el ++
      " in order of appearance.\nUse exact text for extractions. Do not paraphrase or overlap entities.\nProvide meaningful attributes for each entity to add context.").data
  rw [String.data_append, String.data_append,
    show (" in order of appearance.\nUse exact text for extractions. Do not paraphrase or overlap entities.\nProvide meaningful attributes for each entity to add context.").data =
      (" in order of appearance.").data ++
        '\n' :: (("Use exact text for extractions. Do not paraphrase or overlap entities.").data ++
          '\n' :: ("Provide meaningful attributes for each entity to add context.").data) from rfl]
  simp [List.append_assoc]

set_option maxRecDepth 4096 in
/-- C9 counterexample: the derived prompt_description joins the template's
three sentences with newlines, not with the single spaces the claim
states. -/
theorem C9_prompt_counterexample :
    prompt_description_of ["Disease"] ≠
      "Extract Disease in order of appearance. Use exact text for extractions. Do not paraphrase or overlap entities. Provide meaningful attributes for each entity to add context." ∧
    prompt_description_of ["Disease"] =
      "Extract Disease in order of appearance.\nUse exact text for extractions. Do not paraphrase or overlap entities.\nProvide meaningful attributes for each entity to add context." := by
  refine ⟨by decide, by decide⟩

/-- C9 (amended): prompt_description is a pure function of the entity
names, equal to the claimed template but with the three sentences joined
by newlines (the dedented triple-quoted f-string), for any name list whose
comma-join holds no newline. -/
theorem C9_prompt_description (names : List String)
    (h : '\n' ∉ (pyJoin ", " names).data) :
    prompt_description_of names =
      "Extract " ++ pyJoin ", " names ++
        " in order of appearance.\nUse exact text for extractions. Do not paraphrase or overlap entities.\nProvide meaningful attributes for each entity to add context." :=
  textwrap_dedent_template (pyJoin ", " names) h

/-- C9 witness: the amended description at a concrete name list. -/
theorem C9_prompt_description_witness :
    prompt_description_of ["Disease"] =
      "Extract Disease in order of appearance.\nUse exact text for extractions. Do not paraphrase or overlap entities.\nProvide meaningful attributes for each entity to add context." :=
  C9_prompt_description ["Disease"] (by decide)

/-- C10: `validate_schema` accepts a schema whose single entity has the
empty string as its name (and an empty examples list): only the presence
of the name key is checked, never that the name is non-empty. -/
theorem C10_empty_name_valid :
    validate_schema (Json.obj
      [(("context").data, Json.str ("Clinical trial report").data),
       (("entities").data, Json.arr
         [Json.obj [(("name").data, Json.str []),
                    (("examples").data, Json.arr [])]])]) = (true, "") := rfl

end Spark
